import Mathlib

/-!
CoWatch signalling server: the room registry and the message relay.

A shallow embedding of `server/server.js` (the WebSocket part, lines 47-144):
the in-memory `rooms` object, `ensureRoom`, `broadcast`, `safeSend`, and the
`message` and `close` callbacks installed on every connection.

Conventions of the embedding.

* A decoded message is a `JVal` (what `JSON.parse` returns).  A JavaScript value
  that may be `undefined` (a missing field, `ws._roomId` after `join` without a
  `roomId`) is an `Option JVal`, `none` standing for `undefined`.
* JSON numbers are carried as integers: the source holds IEEE doubles, and the
  embedding covers the safe integers (magnitude below 2^53), the ones that
  JavaScript holds exactly and prints as their decimal digits; beyond them
  `JVal.toStr` and JavaScript differ.
* The `rooms` object is an association list from property keys to rooms.
  `Object.keys` order is not part of the embedding (the server never relies on it).
* A `Set` of sockets is a list in insertion order (the order `for ... of` visits).
* `ws.send(text)` is recorded as a `Send` to that socket; the payload stands for
  its `JSON.stringify` text.  An exception of `ws.send` is swallowed by the
  source (`try ... catch {}`) and never changes the control flow; `broadcastWith`
  spells the loop of `broadcast` out for sends that throw.
* A handler that throws a `TypeError` returns `none`.
* Every `Date.now()` of one handler run reads the `now` of that run.
-/

namespace CoWatch

/-- A decoded JSON value. -/
inductive JVal where
  | null
  | bool (b : Bool)
  | num (n : Int)
  | str (s : String)
  | arr (xs : List JVal)
  | obj (kvs : List (String × JVal))

/-- Identity of one accepted WebSocket connection (one `ws` object). -/
abbrev ConnId := Nat

/-- Property read `v.k` on a value that is neither `null` nor `undefined`.
Only objects carry the fields the server reads (`type`, `roomId`, `pin`, `name`);
a member name that occurs twice in the text is decoded to its last value. -/
def JVal.getField (v : JVal) (k : String) : Option JVal :=
  match v with
  | .obj kvs => (kvs.reverse.find? (fun p => p.1 == k)).map (fun p => p.2)
  | _ => none

/-- Whether the decoded value is the literal `null`. -/
def JVal.isNull : JVal → Bool
  | .null => true
  | _ => false

/-- JavaScript `ToBoolean`: `undefined`, `null`, `false`, `0` and `""` are falsy. -/
def truthy : Option JVal → Bool
  | none => false
  | some .null => false
  | some (.bool b) => b
  | some (.num n) => n != 0
  | some (.str s) => s != ""
  | some (.arr _) => true
  | some (.obj _) => true

mutual
/-- JavaScript `ToString` of a decoded value, `none` when it throws a `TypeError`.
An object decoded from JSON has no callable own property, so an own `toString`
member hides `Object.prototype.toString` and the conversion throws. -/
def JVal.toStr : JVal → Option String
  | .null => some "null"
  | .bool true => some "true"
  | .bool false => some "false"
  | .num n => some (toString n)
  | .str s => some s
  | .arr xs => JVal.joinArr xs
  | .obj kvs => if kvs.any (fun p => p.1 == "toString") then none else some "[object Object]"
/-- The text of `Array.prototype.join(",")`: `null` elements print as the empty string. -/
def JVal.joinArr : List JVal → Option String
  | [] => some ""
  | x :: xs =>
    match JVal.elemStr x, xs, JVal.joinArr xs with
    | some a, [], _ => some a
    | some a, _ :: _, some b => some (a ++ "," ++ b)
    | _, _, _ => none
/-- One element of `join`: `null` gives `""`, anything else its `ToString`. -/
def JVal.elemStr : JVal → Option String
  | .null => some ""
  | .bool true => some "true"
  | .bool false => some "false"
  | .num n => some (toString n)
  | .str s => some s
  | .arr xs => JVal.joinArr xs
  | .obj kvs => if kvs.any (fun p => p.1 == "toString") then none else some "[object Object]"
end

/-- The property key of `rooms[v]` (`ToPropertyKey`), `none` when the coercion throws. -/
def toPropertyKey : Option JVal → Option String
  | none => some "undefined"
  | some v => v.toStr

/-- The test `a === b` for a stored value `a` and a value `b` decoded from a
later message: primitives compare by value, and an array or object of one
`JSON.parse` is never identical to one of another. -/
def strictEq : Option JVal → Option JVal → Bool
  | none, none => true
  | some .null, some .null => true
  | some (.bool a), some (.bool b) => a == b
  | some (.num a), some (.num b) => a == b
  | some (.str a), some (.str b) => a == b
  | _, _ => false

/-- What `JSON.stringify` keeps of an object literal: a member whose value is
`undefined` is left out. -/
def mkObj (fields : List (String × Option JVal)) : JVal :=
  .obj (fields.filterMap (fun p => p.2.map (fun v => (p.1, v))))

/-- One call `ws.send(JSON.stringify(payload))` on the socket `dest`. -/
structure Send where
  dest : ConnId
  payload : JVal

/-- A room object: `{ pin, clients, createdAt, lastActive }`. -/
structure Room where
  pin : Option JVal
  clients : List ConnId
  createdAt : Nat
  lastActive : Nat

/-- The `rooms` object (created with `Object.create(null)`: no inherited keys). -/
abbrev Rooms := List (String × Room)

/-- Read `rooms[k]`. -/
def Rooms.get (k : String) : Rooms → Option Room
  | [] => none
  | (k', r) :: rest => if k' = k then some r else Rooms.get k rest

/-- Write `rooms[k] = r`. -/
def Rooms.set (k : String) (r : Room) : Rooms → Rooms
  | [] => [(k, r)]
  | (k', r') :: rest => if k' = k then (k, r) :: rest else (k', r') :: Rooms.set k r rest

/-- Statement `delete rooms[k]`. -/
def Rooms.delete (k : String) (rooms : Rooms) : Rooms :=
  rooms.filter (fun p => p.1 != k)

/-- Method `Set.prototype.add`. -/
def setAdd (c : ConnId) (clients : List ConnId) : List ConnId :=
  if c ∈ clients then clients else clients ++ [c]

/-- Method `Set.prototype.delete`. -/
def setDelete (c : ConnId) (clients : List ConnId) : List ConnId :=
  clients.filter (fun w => w != c)

/-- The two fields the server attaches to a socket: `ws._roomId` and `ws._name`. -/
structure Conn where
  roomId : Option JVal
  name : JVal

/-- The fields as the `connection` callback sets them: both `null`. -/
def Conn.fresh : Conn := ⟨some .null, .null⟩

/-- The server state: the `rooms` object, the fields of every socket, and the
sockets whose `close` event has fired (no event follows it on that socket). -/
structure State where
  rooms : Rooms
  conns : ConnId → Conn
  closed : List ConnId

/-- The state at start-up: no room, every socket as its `connection` callback leaves it. -/
def State.init : State := ⟨[], fun _ => Conn.fresh, []⟩

/-- Answer of `GET /api/rooms`: `Object.keys(rooms)`. -/
def listIds (s : State) : List String := s.rooms.map (fun p => p.1)

/-- The `rooms` count of `GET /api/health`: `Object.keys(rooms).length`. -/
def healthCount (s : State) : Nat := (listIds s).length

/-- Function `ensureRoom(roomId, pin)` on the key `k` of `roomId`: creates the room
when `rooms[k]` is missing, refreshes `lastActive` otherwise; returns the room. -/
def ensureRoom (rooms : Rooms) (k : String) (pin : Option JVal) (now : Nat) : Rooms × Room :=
  match rooms.get k with
  | none =>
    let room : Room := ⟨pin, [], now, now⟩
    (rooms.set k room, room)
  | some room =>
    let room1 : Room := { room with lastActive := now }
    (rooms.set k room1, room1)

/-- Function `broadcast(roomId, from, payload, includeSelf)` on the key `k` of
`roomId`; the source's default is `includeSelf = false`. -/
def broadcast (rooms : Rooms) (k : String) (frm : ConnId) (payload : JVal)
    (includeSelf : Bool) (now : Nat) : Rooms × List Send :=
  match rooms.get k with
  | none => (rooms, [])
  | some room =>
    (rooms.set k { room with lastActive := now },
      (room.clients.filter (fun w => includeSelf || w != frm)).map (fun w => ⟨w, payload⟩))

/-- Function `safeSend(ws, obj)`. -/
def safeSend (ws : ConnId) (o : JVal) : List Send := [⟨ws, o⟩]

/-- The reply `{ type: 'error', error: text }`. -/
def errorMsg (text : String) : JVal :=
  mkObj [("type", some (.str "error")), ("error", some (.str text))]

/-- The reply `{ type: 'created', roomId }` or `{ type: 'joined', roomId }`. -/
def replyMsg (type : String) (roomId : Option JVal) : JVal :=
  mkObj [("type", some (.str type)), ("roomId", roomId)]

/-- The announcement `{ type: 'peer-join', name }` or `{ type: 'peer-leave', name }`. -/
def peerMsg (type : String) (name : JVal) : JVal :=
  mkObj [("type", some (.str type)), ("name", some name)]

/-- The test `msg.type === t` for a string literal `t`. -/
def JVal.typeIs (msg : JVal) (t : String) : Bool :=
  strictEq (msg.getField "type") (some (.str t))

/-- Write `ws._roomId` and `ws._name` of the socket `c`. -/
def setConn (conns : ConnId → Conn) (c : ConnId) (v : Conn) : ConnId → Conn :=
  fun x => if x = c then v else conns x

/-- The admission shared by `create` and `join` (lines 108-113 and 121-126):
add the socket to the room at `k`, set its fields, reply, announce. -/
def enterRoom (s : State) (rooms : Rooms) (room : Room) (k : String) (c : ConnId)
    (roomId : Option JVal) (name : JVal) (reply : String) (now : Nat) : State × List Send :=
  let rooms1 := rooms.set k { room with clients := setAdd c room.clients }
  let conns1 := setConn s.conns c ⟨roomId, name⟩
  let out1 := safeSend c (replyMsg reply roomId)
  let b := broadcast rooms1 k c (peerMsg "peer-join" name) false now
  ({ s with rooms := b.1, conns := conns1 }, out1 ++ b.2)

/-- Expression `msg.name || dflt`. -/
def nameOr (name : Option JVal) (dflt : String) : JVal :=
  match name with
  | some v => if truthy (some v) then v else .str dflt
  | none => .str dflt

/-- The `create` branch (lines 103-114). -/
def onCreate (s : State) (c : ConnId) (msg : JVal) (now : Nat) : Option (State × List Send) :=
  let roomId := msg.getField "roomId"
  let pin := msg.getField "pin"
  if !truthy roomId || !truthy pin then
    some (s, safeSend c (errorMsg "roomId and pin required"))
  else
    match toPropertyKey roomId with
    | none => none
    | some k =>
      let e := ensureRoom s.rooms k pin now
      -- `room.pin !== msg.pin`: when `ensureRoom` has just made the room, `room.pin` is the
      -- value `msg.pin` itself (identical to itself); otherwise it comes from an earlier message
      let mismatch := match s.rooms.get k with
        | none => false
        | some old => !strictEq old.pin pin
      if mismatch then
        some ({ s with rooms := e.1 }, safeSend c (errorMsg "PIN mismatch for existing room"))
      else
        some (enterRoom s e.1 e.2 k c roomId (nameOr (msg.getField "name") "host") "created" now)

/-- The `join` branch (lines 116-127). -/
def onJoin (s : State) (c : ConnId) (msg : JVal) (now : Nat) : Option (State × List Send) :=
  let roomId := msg.getField "roomId"
  match toPropertyKey roomId with
  | none => none
  | some k =>
    match s.rooms.get k with
    | none => some (s, safeSend c (errorMsg "Room not found"))
    | some room =>
      if !strictEq room.pin (msg.getField "pin") then
        some (s, safeSend c (errorMsg "Wrong PIN"))
      else
        some (enterRoom s s.rooms room k c roomId (nameOr (msg.getField "name") "guest") "joined" now)

/-- The last two statements of the `message` callback (lines 129-132). -/
def onRelay (s : State) (c : ConnId) (msg : JVal) (now : Nat) : Option (State × List Send) :=
  let roomId := (s.conns c).roomId
  if !truthy roomId then
    some (s, safeSend c (errorMsg "Not in a room"))
  else
    match toPropertyKey roomId with
    | none => none
    | some k =>
      let b := broadcast s.rooms k c msg false now
      some ({ s with rooms := b.1 }, b.2)

/-- The `message` callback (lines 99-133). `raw = none` is a text that
`JSON.parse` rejects; `none` as result is a thrown `TypeError`. -/
def onMessage (s : State) (c : ConnId) (raw : Option JVal) (now : Nat) :
    Option (State × List Send) :=
  match raw with
  | none => some (s, [])
  | some msg =>
    -- `msg.type` on `null` throws
    if msg.isNull then none
    else if msg.typeIs "create" then onCreate s c msg now
    else if msg.typeIs "join" then onJoin s c msg now
    else onRelay s c msg now

/-- The `close` callback (lines 135-143). -/
def onClose (s : State) (c : ConnId) (now : Nat) : Option (State × List Send) :=
  let roomId := (s.conns c).roomId
  if !truthy roomId then some (s, [])
  else
    match toPropertyKey roomId with
    | none => none
    | some k =>
      match s.rooms.get k with
      | none => some (s, [])
      | some room =>
        let rooms1 := s.rooms.set k { room with clients := setDelete c room.clients }
        let b := broadcast rooms1 k c (peerMsg "peer-leave" (s.conns c).name) false now
        match b.1.get k with
        | none => some ({ s with rooms := b.1 }, b.2)
        | some room2 =>
          if room2.clients.length = 0 then some ({ s with rooms := Rooms.delete k b.1 }, b.2)
          else some ({ s with rooms := b.1 }, b.2)

/-- What the outside world does to the server. -/
inductive Event where
  | message (c : ConnId) (raw : Option JVal) (now : Nat)
  | close (c : ConnId) (now : Nat)

/-- One event on an open socket; `none` when the socket is already closed or
the handler throws. -/
def step (s : State) : Event → Option (State × List Send)
  | .message c raw now => if c ∈ s.closed then none else onMessage s c raw now
  | .close c now =>
    if c ∈ s.closed then none
    else (onClose s c now).map (fun r => ({ r.1 with closed := c :: r.1.closed }, r.2))

/-- A sequence of events, handled one at a time; the sends in program order. -/
def run (s : State) : List Event → Option (State × List Send)
  | [] => some (s, [])
  | e :: es =>
    match step s e with
    | none => none
    | some r =>
      match run r.1 es with
      | none => none
      | some r2 => some (r2.1, r.2 ++ r2.2)

/-- A state the server can be in: the result of some run from start-up. -/
def Reachable (s : State) : Prop := ∃ es out, run State.init es = some (s, out)

/-- What the socket `w` is sent, in order. -/
def received (w : ConnId) (out : List Send) : List JVal :=
  (out.filter (fun e => e.dest == w)).map (fun e => e.payload)

/-- The member list of the room at key `k` (empty when there is no such room). -/
def membersOf (s : State) (k : String) : List ConnId :=
  match s.rooms.get k with
  | none => []
  | some r => r.clients

/-- The pin and the member set of a room: what admission control reads. -/
def Room.core (r : Room) : Option JVal × List ConnId := (r.pin, r.clients)

/-- Two registries with the same keys, and the same pin and members under each key. -/
def SameRooms (a b : Rooms) : Prop :=
  a.map (fun p => p.1) = b.map (fun p => p.1) ∧
    ∀ k, (a.get k).map Room.core = (b.get k).map Room.core

/-- Every member list of the registry satisfies `P`. -/
def AllClients (P : List ConnId → Prop) (rooms : Rooms) : Prop :=
  ∀ k r, rooms.get k = some r → P r.clients

/-- The state reached from start-up by the events `es` (start-up itself when the run fails). -/
def stateAfter (es : List Event) : State :=
  match run State.init es with
  | some r => r.1
  | none => State.init

/-- The sends of the run of `es` from start-up. -/
def sendsAfter (es : List Event) : List Send :=
  match run State.init es with
  | some r => r.2
  | none => []

/-- The state after the run of `es` from `s` (`s` itself when the run fails). -/
def runState (s : State) (es : List Event) : State :=
  match run s es with
  | some r => r.1
  | none => s

/-- The sends of the run of `es` from `s`. -/
def runSends (s : State) (es : List Event) : List Send :=
  match run s es with
  | some r => r.2
  | none => []

/-- Whether the event is an inbound message. -/
def Event.isMessage : Event → Bool
  | .message _ _ _ => true
  | .close _ _ => false

/-! ## Scenario data -/

/-- The message `create{roomId:"R1", pin:"123456", name:"Alice"}`. -/
def msgCreateR1 : JVal :=
  .obj [("type", .str "create"), ("roomId", .str "R1"), ("pin", .str "123456"), ("name", .str "Alice")]

/-- The message `create{roomId:"R2", pin:"654321", name:"Alice"}`. -/
def msgCreateR2 : JVal :=
  .obj [("type", .str "create"), ("roomId", .str "R2"), ("pin", .str "654321"), ("name", .str "Alice")]

/-- The message `join{roomId:"R1", pin:"123456", name:"Bob"}`. -/
def msgJoinR1 : JVal :=
  .obj [("type", .str "join"), ("roomId", .str "R1"), ("pin", .str "123456"), ("name", .str "Bob")]

/-- The message `join{roomId:"R1", pin:"000000", name:"Bob"}`. -/
def msgJoinR1Wrong : JVal :=
  .obj [("type", .str "join"), ("roomId", .str "R1"), ("pin", .str "000000"), ("name", .str "Bob")]

/-- The message `create{roomId:"R1", pin:"000000", name:"Carol"}`. -/
def msgCreateR1Wrong : JVal :=
  .obj [("type", .str "create"), ("roomId", .str "R1"), ("pin", .str "000000"), ("name", .str "Carol")]

/-- The message `play`. -/
def msgPlay : JVal := .obj [("type", .str "play")]

/-- The message `seek{time:42}`. -/
def msgSeek : JVal := .obj [("type", .str "seek"), ("time", .num 42)]

/-- The message `join{roomId:"R1", pin:"123456", name:"Zed"}`. -/
def msgJoinR1Zed : JVal :=
  .obj [("type", .str "join"), ("roomId", .str "R1"), ("pin", .str "123456"), ("name", .str "Zed")]

/-- The message `create{roomId:[], pin:"123456"}`: its `roomId` is an empty array. -/
def msgCreateEmptyKey : JVal :=
  .obj [("type", .str "create"), ("roomId", .arr []), ("pin", .str "123456")]

/-- The message `join{roomId:{toString:1}}`: its `roomId` is an object with a member
named `toString`. -/
def msgJoinBadKey : JVal :=
  .obj [("type", .str "join"), ("roomId", .obj [("toString", .num 1)])]

/-- The message `create{roomId:"0", pin:"p", name:"Alice"}`: its `roomId` is the string `"0"`. -/
def msgCreateZero : JVal :=
  .obj [("type", .str "create"), ("roomId", .str "0"), ("pin", .str "p"), ("name", .str "Alice")]

/-- The message `join{roomId:0, pin:"p", name:"Bob"}`: its `roomId` is the number `0`. -/
def msgJoinZero : JVal :=
  .obj [("type", .str "join"), ("roomId", .num 0), ("pin", .str "p"), ("name", .str "Bob")]

/-- A room with the three members 0, 1 and 2. -/
def roomABC : Room := ⟨some (.str "123456"), [0, 1, 2], 0, 0⟩

/-- The scenario state in which sockets 0 (Alice) and 1 (Bob) are the members of `R1`. -/
def stateAB : State :=
  stateAfter [.message 0 (some msgCreateR1) 1, .message 1 (some msgJoinR1) 2]

/-! ## Auxiliary predicates and values -/

/-- Every room of `a` is still in `b`, with the pin it had. -/
def PinStable (a b : Rooms) : Prop :=
  ∀ k r, a.get k = some r → ∃ r1, b.get k = some r1 ∧ r1.pin = r.pin

/-- The room that an admission of `c` leaves at the key. -/
def Room.entered (room : Room) (c : ConnId) (now : Nat) : Room :=
  ⟨room.pin, setAdd c room.clients, room.createdAt, now⟩

/-- The room that the departure of `c` leaves at the key. -/
def Room.left (room : Room) (c : ConnId) (now : Nat) : Room :=
  ⟨room.pin, setDelete c room.clients, room.createdAt, now⟩

/-- The registry after the `close` callback has removed `c` from `room` at `k`. -/
def roomsAfterLeave (rooms : Rooms) (k : String) (room : Room) (c : ConnId) (now : Nat) : Rooms :=
  let r2 := (rooms.set k { room with clients := setDelete c room.clients }).set k (room.left c now)
  if setDelete c room.clients = [] then Rooms.delete k r2 else r2

/-- What an admission does to the registry and to the socket. -/
def Admitted (s s1 : State) (c : ConnId) (k : String) (now : Nat) : Prop :=
  ∃ (pin0 : Option JVal) (l0 : List ConnId) (t0 : Nat) (roomId : Option JVal) (name : JVal),
    (match s.rooms.get k with
      | some old => old.pin = pin0 ∧ old.clients = l0
      | none => l0 = []) ∧
    (∀ k1, s1.rooms.get k1 = if k1 = k then some ⟨pin0, setAdd c l0, t0, now⟩ else s.rooms.get k1) ∧
    s1.conns = setConn s.conns c ⟨roomId, name⟩ ∧ toPropertyKey roomId = some k

/-! ## Sends that throw -/

/-- Call `ws.send(text)` on a socket whose send throws when `fails w`: what goes on
the wire, or `none` for the exception. -/
def wsSend (fails : ConnId → Bool) (w : ConnId) (payload : JVal) : Option (List Send) :=
  if fails w then none else some [⟨w, payload⟩]

/-- Statement `try { body } catch {}`: an exception of the body is dropped. -/
def tryCatch (body : Option (List Send)) : Option (List Send) :=
  match body with
  | some l => some l
  | none => some []

/-- The loop of `broadcast` (lines 85-88) over the member set, `none` when an
exception leaves the loop. -/
def broadcastLoop (fails : ConnId → Bool) (frm : ConnId) (payload : JVal) (includeSelf : Bool) :
    List ConnId → Option (List Send)
  | [] => some []
  | w :: rest =>
    -- `if (!includeSelf && ws === from) continue;`
    if !includeSelf && w == frm then broadcastLoop fails frm payload includeSelf rest
    else
      match tryCatch (wsSend fails w payload) with
      | none => none
      | some sent =>
        match broadcastLoop fails frm payload includeSelf rest with
        | none => none
        | some l => some (sent ++ l)

/-- Function `broadcast` when the sends to the sockets in `fails` throw: the
registry it leaves and what goes on the wire, `none` when it raises. -/
def broadcastWith (fails : ConnId → Bool) (rooms : Rooms) (k : String) (frm : ConnId)
    (payload : JVal) (includeSelf : Bool) (now : Nat) : Option (Rooms × List Send) :=
  match rooms.get k with
  | none => some (rooms, [])
  | some room =>
    match broadcastLoop fails frm payload includeSelf room.clients with
    | none => none
    | some delivered => some (rooms.set k { room with lastActive := now }, delivered)

/-! ## Outcomes of the `message` callback -/

/-- Whether a payload is one of the replies `created` and `joined`. -/
def JVal.isReply (p : JVal) : Bool := p.typeIs "created" || p.typeIs "joined"

/-- A handler run that admits nobody: registry (up to `lastActive`) and sockets
as before, and no `created` or `joined` goes to the sender. -/
def NoAdmission (s s1 : State) (c : ConnId) (out : List Send) : Prop :=
  SameRooms s1.rooms s.rooms ∧ s1.conns = s.conns ∧ s1.closed = s.closed ∧
    ∀ e ∈ out, e.dest = c → e.payload.isReply = false

/-- A handler run that admits the sender `c` through the message `msg`. -/
def AdmittedBy (s s1 : State) (c : ConnId) (msg : JVal) (out : List Send) (now : Nat) : Prop :=
  ∃ (k : String) (t0 : Nat) (reply dflt : String),
    ((msg.typeIs "create" = true ∧ reply = "created" ∧ dflt = "host") ∨
      (msg.typeIs "join" = true ∧ reply = "joined" ∧ dflt = "guest")) ∧
    toPropertyKey (msg.getField "roomId") = some k ∧
    (∀ old, s.rooms.get k = some old → old.pin = msg.getField "pin") ∧
    (∀ k1, s1.rooms.get k1 =
      if k1 = k then some ⟨msg.getField "pin", setAdd c (membersOf s k), t0, now⟩
      else s.rooms.get k1) ∧
    s1.conns = setConn s.conns c ⟨msg.getField "roomId", nameOr (msg.getField "name") dflt⟩ ∧
    s1.closed = s.closed ∧
    out = (⟨c, replyMsg reply (msg.getField "roomId")⟩ : Send) ::
      ((membersOf s k).filter (fun w => w != c)).map
        (fun w => (⟨w, peerMsg "peer-join" (nameOr (msg.getField "name") dflt)⟩ : Send)) ∧
    (s.rooms.get k = none →
      truthy (msg.getField "roomId") = true ∧ truthy (msg.getField "pin") = true)

/-- Whether the event is a message of type `create` or `join` from the socket `c`. -/
def Event.admissionBy (c : ConnId) : Event → Bool
  | .message c0 (some msg) _ => c0 == c && (msg.typeIs "create" || msg.typeIs "join")
  | _ => false

/-- Every member of every room of `s` has, among the events `hist`, a `create` or
`join` message of its own whose `roomId` names that room and whose pin is the
room's pin. -/
def Authorised (hist : List Event) (s : State) : Prop :=
  ∀ k room c, s.rooms.get k = some room → c ∈ room.clients →
    ∃ msg now, Event.message c (some msg) now ∈ hist ∧
      (msg.typeIs "create" = true ∨ msg.typeIs "join" = true) ∧
      toPropertyKey (msg.getField "roomId") = some k ∧ msg.getField "pin" = room.pin

/-- Every open socket whose `roomId` is set is a member of the room its `roomId` names. -/
def Bound (s : State) : Prop :=
  ∀ c, c ∉ s.closed → truthy (s.conns c).roomId = true →
    ∃ k room, toPropertyKey (s.conns c).roomId = some k ∧ s.rooms.get k = some room ∧
      c ∈ room.clients

/-! ## The registry as a map -/

theorem Rooms.get_set_self (k : String) (r : Room) (rooms : Rooms) :
    (Rooms.set k r rooms).get k = some r := by
  induction rooms with
  | nil => simp [Rooms.set, Rooms.get]
  | cons p rest ih =>
    obtain ⟨k0, r0⟩ := p
    by_cases h0 : k0 = k
    · simp [Rooms.set, Rooms.get, h0]
    · simp [Rooms.set, Rooms.get, h0, ih]

theorem Rooms.get_set_ne (k k' : String) (r : Room) (rooms : Rooms) (h : k' ≠ k) :
    (Rooms.set k r rooms).get k' = rooms.get k' := by
  have h' : ¬ k = k' := fun e => h e.symm
  induction rooms with
  | nil => simp [Rooms.set, Rooms.get, h']
  | cons p rest ih =>
    obtain ⟨k0, r0⟩ := p
    by_cases h0 : k0 = k
    · subst h0
      simp [Rooms.set, Rooms.get, h']
    · by_cases h1 : k0 = k'
      · subst h1
        simp [Rooms.set, Rooms.get, h0]
      · simp [Rooms.set, Rooms.get, h0, h1, ih]

theorem Rooms.get_set (k k' : String) (r : Room) (rooms : Rooms) :
    (Rooms.set k r rooms).get k' = if k' = k then some r else rooms.get k' := by
  by_cases h : k' = k
  · subst h
    simp [Rooms.get_set_self]
  · simp [h, Rooms.get_set_ne k k' r rooms h]

theorem Rooms.get_delete_self (k : String) (rooms : Rooms) :
    (Rooms.delete k rooms).get k = none := by
  induction rooms with
  | nil => simp [Rooms.delete, Rooms.get]
  | cons p rest ih =>
    obtain ⟨k0, r0⟩ := p
    simp only [Rooms.delete] at ih
    by_cases h0 : k0 = k
    · simp [Rooms.delete, List.filter_cons, h0, ih]
    · simp [Rooms.delete, Rooms.get, List.filter_cons, h0, ih]

theorem Rooms.get_delete_ne (k k' : String) (rooms : Rooms) (h : k' ≠ k) :
    (Rooms.delete k rooms).get k' = rooms.get k' := by
  induction rooms with
  | nil => simp [Rooms.delete, Rooms.get]
  | cons p rest ih =>
    obtain ⟨k0, r0⟩ := p
    simp only [Rooms.delete] at ih
    by_cases h0 : k0 = k
    · subst h0
      have h1 : ¬ k0 = k' := fun e => h e.symm
      simp [Rooms.delete, Rooms.get, List.filter_cons, h1, ih]
    · by_cases h1 : k0 = k'
      · subst h1
        simp [Rooms.delete, Rooms.get, List.filter_cons, h0]
      · simp [Rooms.delete, Rooms.get, List.filter_cons, h0, h1, ih]

theorem Rooms.get_delete (k k' : String) (rooms : Rooms) :
    (Rooms.delete k rooms).get k' = if k' = k then none else rooms.get k' := by
  by_cases h : k' = k
  · subst h
    simp [Rooms.get_delete_self]
  · simp [h, Rooms.get_delete_ne k k' rooms h]

theorem Rooms.get_eq_none_iff (k : String) (rooms : Rooms) :
    rooms.get k = none ↔ k ∉ rooms.map (fun p => p.1) := by
  induction rooms with
  | nil => simp [Rooms.get]
  | cons p rest ih =>
    obtain ⟨k0, r0⟩ := p
    by_cases h0 : k0 = k
    · simp [Rooms.get, h0]
    · have h' : ¬ k = k0 := fun e => h0 e.symm
      simp [Rooms.get, h0, h', ih]

theorem Rooms.keys_set_of_mem (k : String) (r r0 : Room) (rooms : Rooms)
    (h : rooms.get k = some r0) :
    (Rooms.set k r rooms).map (fun p => p.1) = rooms.map (fun p => p.1) := by
  induction rooms with
  | nil => simp [Rooms.get] at h
  | cons p rest ih =>
    obtain ⟨k0, r1⟩ := p
    by_cases h0 : k0 = k
    · simp [Rooms.set, h0]
    · simp only [Rooms.get, h0, if_false] at h
      simp [Rooms.set, h0, ih h]

/-- Replacing a room by one with the same pin and members changes nothing that
admission control or the listing can see. -/
theorem sameRooms_touch (k : String) (r r0 : Room) (rooms : Rooms)
    (h : rooms.get k = some r0) (hc : r.core = r0.core) :
    SameRooms (Rooms.set k r rooms) rooms := by
  refine ⟨Rooms.keys_set_of_mem k r r0 rooms h, fun k' => ?_⟩
  rw [Rooms.get_set]
  by_cases hk : k' = k
  · subst hk
    simp [h, hc]
  · simp [hk]

theorem sameRooms_refl (a : Rooms) : SameRooms a a := ⟨rfl, fun _ => rfl⟩

/-! ## Receipts -/

theorem received_append (w : ConnId) (a b : List Send) :
    received w (a ++ b) = received w a ++ received w b := by
  simp [received]

theorem filter_eq_of_nodup (w : ConnId) (l : List ConnId) (h : l.Nodup) :
    l.filter (fun x => x == w) = if w ∈ l then [w] else [] := by
  induction l with
  | nil => simp
  | cons a rest ih =>
    have hr := (List.nodup_cons.mp h)
    by_cases ha : a = w
    · subst ha
      have hne : ∀ x ∈ rest, ¬ x = a := fun x hx e => hr.1 (e ▸ hx)
      simpa [List.filter_cons, List.filter_eq_nil_iff] using hne
    · have ha' : ¬ w = a := fun e => ha e.symm
      simp [List.filter_cons, ha, ha', ih hr.2]

/-- What one socket gets out of a fan-out of `payload` over a duplicate-free list. -/
theorem received_fanout (w : ConnId) (l : List ConnId) (p : ConnId → Bool) (payload : JVal)
    (h : l.Nodup) :
    received w ((l.filter p).map (fun x => (⟨x, payload⟩ : Send))) =
      if w ∈ l ∧ p w = true then [payload] else [] := by
  have h1 : ((l.filter p).map (fun x => (⟨x, payload⟩ : Send))).filter (fun e => e.dest == w)
      = ((l.filter p).filter (fun x => x == w)).map (fun x => (⟨x, payload⟩ : Send)) := by
    rw [List.filter_map]
    rfl
  unfold received
  rw [h1, filter_eq_of_nodup w _ (h.filter p)]
  by_cases hw : w ∈ l ∧ p w = true
  · simp [hw, List.mem_filter]
  · have : ¬ (w ∈ List.filter p l) := by
      simpa [List.mem_filter] using hw
    simp [hw, this]

/-! ## Relations between registries -/

theorem sameRooms_symm {a b : Rooms} (h : SameRooms a b) : SameRooms b a :=
  ⟨h.1.symm, fun k => (h.2 k).symm⟩

theorem sameRooms_trans {a b c : Rooms} (h1 : SameRooms a b) (h2 : SameRooms b c) :
    SameRooms a c :=
  ⟨h1.1.trans h2.1, fun k => (h1.2 k).trans (h2.2 k)⟩

theorem sameRooms_get {a b : Rooms} (h : SameRooms a b) {k : String} {r : Room}
    (hr : a.get k = some r) : ∃ r0, b.get k = some r0 ∧ r0.pin = r.pin ∧ r0.clients = r.clients := by
  have hk := h.2 k
  rw [hr] at hk
  cases hb : b.get k with
  | none => simp [hb] at hk
  | some r0 =>
    rw [hb] at hk
    simp only [Option.map_some', Option.some.injEq, Room.core, Prod.mk.injEq] at hk
    exact ⟨r0, rfl, hk.1.symm, hk.2.symm⟩

theorem allClients_of_same {P : List ConnId → Prop} {a b : Rooms} (h : SameRooms b a)
    (ha : AllClients P a) : AllClients P b := by
  intro k r hr
  obtain ⟨r0, h0, _, hc⟩ := sameRooms_get h hr
  rw [← hc]
  exact ha k r0 h0

theorem allClients_set {P : List ConnId → Prop} {rooms : Rooms} (k : String) (r : Room)
    (ha : AllClients P rooms) (hr : P r.clients) : AllClients P (Rooms.set k r rooms) := by
  intro k' r' h'
  rw [Rooms.get_set] at h'
  by_cases hk : k' = k
  · simp only [hk, if_true, Option.some.injEq] at h'
    rw [← h']
    exact hr
  · simp only [hk, if_false] at h'
    exact ha k' r' h'

theorem allClients_delete {P : List ConnId → Prop} {rooms : Rooms} (k : String)
    (ha : AllClients P rooms) : AllClients P (Rooms.delete k rooms) := by
  intro k' r' h'
  rw [Rooms.get_delete] at h'
  by_cases hk : k' = k
  · simp [hk] at h'
  · simp only [hk, if_false] at h'
    exact ha k' r' h'

theorem pinStable_refl (a : Rooms) : PinStable a a := fun _ r h => ⟨r, h, rfl⟩

theorem pinStable_trans {a b c : Rooms} (h1 : PinStable a b) (h2 : PinStable b c) :
    PinStable a c := by
  intro k r hr
  obtain ⟨r1, hb, hp⟩ := h1 k r hr
  obtain ⟨r2, hc, hp2⟩ := h2 k r1 hb
  exact ⟨r2, hc, hp2.trans hp⟩

theorem pinStable_of_same {a b : Rooms} (h : SameRooms a b) : PinStable a b := by
  intro k r hr
  obtain ⟨r0, h0, hp, _⟩ := sameRooms_get h hr
  exact ⟨r0, h0, hp⟩

theorem pinStable_set (rooms : Rooms) (k : String) (r : Room)
    (h : ∀ r0, rooms.get k = some r0 → r.pin = r0.pin) : PinStable rooms (Rooms.set k r rooms) := by
  intro k' r' h'
  rw [Rooms.get_set]
  by_cases hk : k' = k
  · subst hk
    exact ⟨r, by simp, h r' h'⟩
  · exact ⟨r', by simp [hk, h'], rfl⟩

/-! ## The functions of the server, one fact at a time -/

theorem broadcast_none (rooms : Rooms) (k : String) (frm : ConnId) (payload : JVal)
    (inc : Bool) (now : Nat) (h : rooms.get k = none) :
    broadcast rooms k frm payload inc now = (rooms, []) := by
  simp [broadcast, h]

theorem broadcast_some (rooms : Rooms) (k : String) (frm : ConnId) (payload : JVal)
    (inc : Bool) (now : Nat) (room : Room) (h : rooms.get k = some room) :
    broadcast rooms k frm payload inc now =
      (rooms.set k { room with lastActive := now },
        (room.clients.filter (fun w => inc || w != frm)).map (fun w => (⟨w, payload⟩ : Send))) := by
  simp [broadcast, h]

theorem broadcast_same (rooms : Rooms) (k : String) (frm : ConnId) (payload : JVal)
    (inc : Bool) (now : Nat) : SameRooms (broadcast rooms k frm payload inc now).1 rooms := by
  cases h : rooms.get k with
  | none => rw [broadcast_none _ _ _ _ _ _ h]; exact sameRooms_refl _
  | some room =>
    rw [broadcast_some _ _ _ _ _ _ room h]
    exact sameRooms_touch k _ room rooms h rfl

/-- The sends of a broadcast: the payload, to members of the room, never to `frm`. -/
theorem broadcast_sends (rooms : Rooms) (k : String) (frm : ConnId) (payload : JVal)
    (now : Nat) (e : Send) (he : e ∈ (broadcast rooms k frm payload false now).2) :
    e.payload = payload ∧ e.dest ≠ frm ∧ ∃ room, rooms.get k = some room ∧ e.dest ∈ room.clients := by
  cases h : rooms.get k with
  | none => rw [broadcast_none _ _ _ _ _ _ h] at he; simp at he
  | some room =>
    rw [broadcast_some _ _ _ _ _ _ room h] at he
    simp only [Bool.false_or, List.mem_map, List.mem_filter] at he
    obtain ⟨w, ⟨hw, hne⟩, rfl⟩ := he
    refine ⟨rfl, ?_, room, rfl, hw⟩
    simpa using hne

theorem setAdd_nodup (c : ConnId) (l : List ConnId) (h : l.Nodup) : (setAdd c l).Nodup := by
  unfold setAdd
  by_cases hc : c ∈ l
  · simp [hc, h]
  · simp only [hc, if_false]
    rw [List.nodup_append]
    refine ⟨h, by simp, ?_⟩
    intro a ha hb
    simp only [List.mem_singleton] at hb
    subst hb
    exact hc ha

theorem setAdd_ne_nil (c : ConnId) (l : List ConnId) : setAdd c l ≠ [] := by
  unfold setAdd
  by_cases hc : c ∈ l
  · simp only [hc, if_true]
    intro h
    rw [h] at hc
    simp at hc
  · simp [hc]

theorem mem_setAdd (c w : ConnId) (l : List ConnId) : w ∈ setAdd c l ↔ w = c ∨ w ∈ l := by
  unfold setAdd
  by_cases hc : c ∈ l
  · simp only [hc, if_true]
    constructor
    · intro h; exact Or.inr h
    · rintro (h | h)
      · rw [h]; exact hc
      · exact h
  · simp only [hc, if_false, List.mem_append, List.mem_singleton]
    tauto

theorem setAdd_filter_ne (c : ConnId) (l : List ConnId) :
    (setAdd c l).filter (fun w => w != c) = l.filter (fun w => w != c) := by
  unfold setAdd
  by_cases hc : c ∈ l
  · simp [hc]
  · simp [hc, List.filter_append]

theorem mem_setDelete (c w : ConnId) (l : List ConnId) : w ∈ setDelete c l ↔ w ∈ l ∧ w ≠ c := by
  simp [setDelete, List.mem_filter]

theorem setDelete_nodup (c : ConnId) (l : List ConnId) (h : l.Nodup) : (setDelete c l).Nodup :=
  h.filter _

theorem typeIs_not_null (msg : JVal) (t : String) (h : msg.typeIs t = true) :
    msg.isNull = false := by
  cases msg <;> simp_all [JVal.typeIs, JVal.getField, strictEq, JVal.isNull]

theorem enterRoom_eq (s : State) (rooms : Rooms) (room : Room) (k : String) (c : ConnId)
    (roomId : Option JVal) (name : JVal) (reply : String) (now : Nat) :
    enterRoom s rooms room k c roomId name reply now =
      (⟨(rooms.set k { room with clients := setAdd c room.clients }).set k (room.entered c now),
          setConn s.conns c ⟨roomId, name⟩, s.closed⟩,
        (⟨c, replyMsg reply roomId⟩ : Send) ::
          (room.clients.filter (fun w => w != c)).map
            (fun w => (⟨w, peerMsg "peer-join" name⟩ : Send))) := by
  have hb := broadcast_some (rooms.set k { room with clients := setAdd c room.clients }) k c
    (peerMsg "peer-join" name) false now { room with clients := setAdd c room.clients }
    (Rooms.get_set_self _ _ _)
  simp only [Bool.false_or] at hb
  simp only [enterRoom, hb, safeSend, setAdd_filter_ne, Room.entered]
  rfl

theorem enterRoom_get (s : State) (rooms : Rooms) (room : Room) (k k' : String) (c : ConnId)
    (roomId : Option JVal) (name : JVal) (reply : String) (now : Nat) :
    (enterRoom s rooms room k c roomId name reply now).1.rooms.get k' =
      if k' = k then some (room.entered c now) else rooms.get k' := by
  rw [enterRoom_eq]
  simp only [Rooms.get_set]
  by_cases h : k' = k <;> simp [h]

theorem onMessage_create (s : State) (c : ConnId) (msg : JVal) (now : Nat)
    (h : msg.typeIs "create" = true) :
    onMessage s c (some msg) now = onCreate s c msg now := by
  simp [onMessage, typeIs_not_null msg _ h, h]

theorem onMessage_join (s : State) (c : ConnId) (msg : JVal) (now : Nat)
    (h : msg.typeIs "join" = true) :
    onMessage s c (some msg) now = onJoin s c msg now := by
  have hc : msg.typeIs "create" = false := by
    cases msg <;> simp_all [JVal.typeIs, JVal.getField, strictEq]
    rename_i kvs
    cases hf : (List.find? (fun p => p.1 == "type") kvs.reverse) with
    | none => simp [hf, strictEq] at h
    | some p =>
      obtain ⟨a, v⟩ := p
      simp only [hf, Option.map_some'] at h ⊢
      cases v <;> simp_all [strictEq]
  simp [onMessage, typeIs_not_null msg _ h, h, hc]

theorem onMessage_relay (s : State) (c : ConnId) (msg : JVal) (now : Nat)
    (hn : msg.isNull = false) (hc : msg.typeIs "create" = false) (hj : msg.typeIs "join" = false) :
    onMessage s c (some msg) now = onRelay s c msg now := by
  simp [onMessage, hn, hc, hj]

theorem onCreate_missing (s : State) (c : ConnId) (msg : JVal) (now : Nat)
    (h : (truthy (msg.getField "roomId") && truthy (msg.getField "pin")) = false) :
    onCreate s c msg now = some (s, safeSend c (errorMsg "roomId and pin required")) := by
  have h' : (!truthy (msg.getField "roomId") || !truthy (msg.getField "pin")) = true := by
    cases h1 : truthy (msg.getField "roomId") <;> cases h2 : truthy (msg.getField "pin") <;>
      simp_all
  simp only [onCreate, h', if_true]

theorem onCreate_throw (s : State) (c : ConnId) (msg : JVal) (now : Nat)
    (h1 : truthy (msg.getField "roomId") = true) (h2 : truthy (msg.getField "pin") = true)
    (hk : toPropertyKey (msg.getField "roomId") = none) :
    onCreate s c msg now = none := by
  simp [onCreate, h1, h2, hk]

theorem onCreate_new (s : State) (c : ConnId) (msg : JVal) (now : Nat) (k : String)
    (h1 : truthy (msg.getField "roomId") = true) (h2 : truthy (msg.getField "pin") = true)
    (hk : toPropertyKey (msg.getField "roomId") = some k) (hr : s.rooms.get k = none) :
    onCreate s c msg now =
      some (enterRoom s (s.rooms.set k ⟨msg.getField "pin", [], now, now⟩)
        ⟨msg.getField "pin", [], now, now⟩ k c (msg.getField "roomId")
        (nameOr (msg.getField "name") "host") "created" now) := by
  simp [onCreate, h1, h2, hk, hr, ensureRoom]

theorem onCreate_mismatch (s : State) (c : ConnId) (msg : JVal) (now : Nat) (k : String)
    (old : Room)
    (h1 : truthy (msg.getField "roomId") = true) (h2 : truthy (msg.getField "pin") = true)
    (hk : toPropertyKey (msg.getField "roomId") = some k) (hr : s.rooms.get k = some old)
    (hp : strictEq old.pin (msg.getField "pin") = false) :
    onCreate s c msg now =
      some ({ s with rooms := s.rooms.set k { old with lastActive := now } },
        safeSend c (errorMsg "PIN mismatch for existing room")) := by
  simp [onCreate, h1, h2, hk, hr, ensureRoom, hp]

theorem onCreate_existing (s : State) (c : ConnId) (msg : JVal) (now : Nat) (k : String)
    (old : Room)
    (h1 : truthy (msg.getField "roomId") = true) (h2 : truthy (msg.getField "pin") = true)
    (hk : toPropertyKey (msg.getField "roomId") = some k) (hr : s.rooms.get k = some old)
    (hp : strictEq old.pin (msg.getField "pin") = true) :
    onCreate s c msg now =
      some (enterRoom s (s.rooms.set k { old with lastActive := now })
        { old with lastActive := now } k c (msg.getField "roomId")
        (nameOr (msg.getField "name") "host") "created" now) := by
  simp [onCreate, h1, h2, hk, hr, ensureRoom, hp]

theorem onJoin_throw (s : State) (c : ConnId) (msg : JVal) (now : Nat)
    (hk : toPropertyKey (msg.getField "roomId") = none) : onJoin s c msg now = none := by
  simp [onJoin, hk]

theorem onJoin_missing (s : State) (c : ConnId) (msg : JVal) (now : Nat) (k : String)
    (hk : toPropertyKey (msg.getField "roomId") = some k) (hr : s.rooms.get k = none) :
    onJoin s c msg now = some (s, safeSend c (errorMsg "Room not found")) := by
  simp [onJoin, hk, hr]

theorem onJoin_mismatch (s : State) (c : ConnId) (msg : JVal) (now : Nat) (k : String)
    (room : Room)
    (hk : toPropertyKey (msg.getField "roomId") = some k) (hr : s.rooms.get k = some room)
    (hp : strictEq room.pin (msg.getField "pin") = false) :
    onJoin s c msg now = some (s, safeSend c (errorMsg "Wrong PIN")) := by
  simp [onJoin, hk, hr, hp]

theorem onJoin_ok (s : State) (c : ConnId) (msg : JVal) (now : Nat) (k : String)
    (room : Room)
    (hk : toPropertyKey (msg.getField "roomId") = some k) (hr : s.rooms.get k = some room)
    (hp : strictEq room.pin (msg.getField "pin") = true) :
    onJoin s c msg now =
      some (enterRoom s s.rooms room k c (msg.getField "roomId")
        (nameOr (msg.getField "name") "guest") "joined" now) := by
  simp [onJoin, hk, hr, hp]

theorem onRelay_unauth (s : State) (c : ConnId) (msg : JVal) (now : Nat)
    (h : truthy (s.conns c).roomId = false) :
    onRelay s c msg now = some (s, safeSend c (errorMsg "Not in a room")) := by
  simp [onRelay, h]

theorem onRelay_throw (s : State) (c : ConnId) (msg : JVal) (now : Nat)
    (h : truthy (s.conns c).roomId = true) (hk : toPropertyKey (s.conns c).roomId = none) :
    onRelay s c msg now = none := by
  simp [onRelay, h, hk]

theorem onRelay_ok (s : State) (c : ConnId) (msg : JVal) (now : Nat) (k : String)
    (h : truthy (s.conns c).roomId = true) (hk : toPropertyKey (s.conns c).roomId = some k) :
    onRelay s c msg now =
      some ({ s with rooms := (broadcast s.rooms k c msg false now).1 },
        (broadcast s.rooms k c msg false now).2) := by
  simp [onRelay, h, hk]

theorem setDelete_idem (c : ConnId) (l : List ConnId) :
    (setDelete c l).filter (fun w => w != c) = setDelete c l := by
  simp [setDelete, List.filter_filter]

theorem onClose_unauth (s : State) (c : ConnId) (now : Nat)
    (h : truthy (s.conns c).roomId = false) : onClose s c now = some (s, []) := by
  simp [onClose, h]

theorem onClose_throw (s : State) (c : ConnId) (now : Nat)
    (h : truthy (s.conns c).roomId = true) (hk : toPropertyKey (s.conns c).roomId = none) :
    onClose s c now = none := by
  simp [onClose, h, hk]

theorem onClose_noroom (s : State) (c : ConnId) (now : Nat) (k : String)
    (h : truthy (s.conns c).roomId = true) (hk : toPropertyKey (s.conns c).roomId = some k)
    (hr : s.rooms.get k = none) : onClose s c now = some (s, []) := by
  simp [onClose, h, hk, hr]

theorem onClose_ok (s : State) (c : ConnId) (now : Nat) (k : String) (room : Room)
    (h : truthy (s.conns c).roomId = true) (hk : toPropertyKey (s.conns c).roomId = some k)
    (hr : s.rooms.get k = some room) :
    onClose s c now =
      some (⟨roomsAfterLeave s.rooms k room c now, s.conns, s.closed⟩,
        (setDelete c room.clients).map
          (fun w => (⟨w, peerMsg "peer-leave" (s.conns c).name⟩ : Send))) := by
  have hb := broadcast_some (s.rooms.set k { room with clients := setDelete c room.clients }) k c
    (peerMsg "peer-leave" (s.conns c).name) false now
    { room with clients := setDelete c room.clients } (Rooms.get_set_self _ _ _)
  simp only [Bool.false_or, setDelete_idem] at hb
  simp only [onClose, h, hk, hr, hb, Rooms.get_set_self, Bool.not_true, Bool.false_eq_true,
    if_false, List.length_eq_zero, Room.left, roomsAfterLeave]
  by_cases he : setDelete c room.clients = []
  · simp [he]
  · simp [he]

theorem roomsAfterLeave_get (rooms : Rooms) (k k1 : String) (room : Room) (c : ConnId)
    (now : Nat) :
    (roomsAfterLeave rooms k room c now).get k1 =
      if k1 = k then (if setDelete c room.clients = [] then none else some (room.left c now))
      else rooms.get k1 := by
  unfold roomsAfterLeave
  by_cases he : setDelete c room.clients = []
  · simp only [he, if_true, Rooms.get_delete, Rooms.get_set]
    by_cases h1 : k1 = k <;> simp [h1]
  · simp only [he, if_false, Rooms.get_set]
    by_cases h1 : k1 = k <;> simp [h1]

theorem onClose_ok_get (s : State) (c : ConnId) (now : Nat) (k : String) (room : Room)
    (h : truthy (s.conns c).roomId = true) (hk : toPropertyKey (s.conns c).roomId = some k)
    (hr : s.rooms.get k = some room) :
    ∃ s1 out, onClose s c now = some (s1, out) ∧ s1.conns = s.conns ∧ s1.closed = s.closed ∧
      out = (setDelete c room.clients).map
          (fun w => (⟨w, peerMsg "peer-leave" (s.conns c).name⟩ : Send)) ∧
      ∀ k1, s1.rooms.get k1 =
        if k1 = k then (if setDelete c room.clients = [] then none else some (room.left c now))
        else s.rooms.get k1 :=
  ⟨_, _, onClose_ok s c now k room h hk hr, rfl, rfl, rfl,
    fun k1 => roomsAfterLeave_get s.rooms k k1 room c now⟩

theorem enterRoom_admitted (s : State) (rooms : Rooms) (room : Room) (k : String) (c : ConnId)
    (roomId : Option JVal) (name : JVal) (reply : String) (now : Nat)
    (hkey : toPropertyKey roomId = some k)
    (hrest : ∀ k1, k1 ≠ k → rooms.get k1 = s.rooms.get k1)
    (hcore : match s.rooms.get k with
      | some old => old.pin = room.pin ∧ old.clients = room.clients
      | none => room.clients = []) :
    Admitted s (enterRoom s rooms room k c roomId name reply now).1 c k now := by
  refine ⟨room.pin, room.clients, room.createdAt, roomId, name, hcore, fun k1 => ?_, ?_, hkey⟩
  · rw [enterRoom_get]
    by_cases h1 : k1 = k
    · simp [h1, Room.entered]
    · simp [h1, hrest k1 h1]
  · rw [enterRoom_eq]

/-- Inversion of the `message` callback: it leaves the registry as it was (up to
`lastActive`) and the sockets untouched, or it is an admission of the sender. -/
theorem onMessage_inv (s s1 : State) (c : ConnId) (raw : Option JVal) (now : Nat)
    (out : List Send) (h : onMessage s c raw now = some (s1, out)) :
    s1.closed = s.closed ∧
      ((SameRooms s1.rooms s.rooms ∧ s1.conns = s.conns) ∨ ∃ k, Admitted s s1 c k now) := by
  cases raw with
  | none =>
    simp only [onMessage, Option.some.injEq, Prod.mk.injEq] at h
    rw [← h.1]
    exact ⟨rfl, Or.inl ⟨sameRooms_refl _, rfl⟩⟩
  | some msg =>
    by_cases hc : msg.typeIs "create" = true
    · rw [onMessage_create s c msg now hc] at h
      by_cases h12 : (truthy (msg.getField "roomId") && truthy (msg.getField "pin")) = true
      · have h1 : truthy (msg.getField "roomId") = true := by
          cases hx : truthy (msg.getField "roomId") <;> simp_all
        have h2 : truthy (msg.getField "pin") = true := by
          cases hx : truthy (msg.getField "pin") <;> simp_all
        cases hk : toPropertyKey (msg.getField "roomId") with
        | none => rw [onCreate_throw s c msg now h1 h2 hk] at h; simp at h
        | some k =>
          cases hr : s.rooms.get k with
          | none =>
            rw [onCreate_new s c msg now k h1 h2 hk hr] at h
            simp only [Option.some.injEq] at h
            have hs : s1 = (enterRoom s (s.rooms.set k ⟨msg.getField "pin", [], now, now⟩)
                ⟨msg.getField "pin", [], now, now⟩ k c (msg.getField "roomId")
                (nameOr (msg.getField "name") "host") "created" now).1 := by rw [h]
            refine ⟨by rw [hs, enterRoom_eq], Or.inr ⟨k, ?_⟩⟩
            rw [hs]
            refine enterRoom_admitted s _ _ k c _ _ _ now hk ?_ ?_
            · intro k1 h1; exact Rooms.get_set_ne k k1 _ _ h1
            · simp [hr]
          | some old =>
            cases hp : strictEq old.pin (msg.getField "pin") with
            | false =>
              rw [onCreate_mismatch s c msg now k old h1 h2 hk hr hp] at h
              simp only [Option.some.injEq, Prod.mk.injEq] at h
              rw [← h.1]
              exact ⟨rfl, Or.inl ⟨sameRooms_touch k _ old s.rooms hr rfl, rfl⟩⟩
            | true =>
              rw [onCreate_existing s c msg now k old h1 h2 hk hr hp] at h
              simp only [Option.some.injEq] at h
              have hs : s1 = (enterRoom s (s.rooms.set k { old with lastActive := now })
                  { old with lastActive := now } k c (msg.getField "roomId")
                  (nameOr (msg.getField "name") "host") "created" now).1 := by rw [h]
              refine ⟨by rw [hs, enterRoom_eq], Or.inr ⟨k, ?_⟩⟩
              rw [hs]
              refine enterRoom_admitted s _ _ k c _ _ _ now hk ?_ ?_
              · intro k1 h1; exact Rooms.get_set_ne k k1 _ _ h1
              · simp [hr]
      · have h12' : (truthy (msg.getField "roomId") && truthy (msg.getField "pin")) = false := by
          simpa using h12
        rw [onCreate_missing s c msg now h12'] at h
        simp only [Option.some.injEq, Prod.mk.injEq] at h
        rw [← h.1]
        exact ⟨rfl, Or.inl ⟨sameRooms_refl _, rfl⟩⟩
    · have hc' : msg.typeIs "create" = false := by simpa using hc
      by_cases hj : msg.typeIs "join" = true
      · rw [onMessage_join s c msg now hj] at h
        cases hk : toPropertyKey (msg.getField "roomId") with
        | none => rw [onJoin_throw s c msg now hk] at h; simp at h
        | some k =>
          cases hr : s.rooms.get k with
          | none =>
            rw [onJoin_missing s c msg now k hk hr] at h
            simp only [Option.some.injEq, Prod.mk.injEq] at h
            rw [← h.1]
            exact ⟨rfl, Or.inl ⟨sameRooms_refl _, rfl⟩⟩
          | some room =>
            cases hp : strictEq room.pin (msg.getField "pin") with
            | false =>
              rw [onJoin_mismatch s c msg now k room hk hr hp] at h
              simp only [Option.some.injEq, Prod.mk.injEq] at h
              rw [← h.1]
              exact ⟨rfl, Or.inl ⟨sameRooms_refl _, rfl⟩⟩
            | true =>
              rw [onJoin_ok s c msg now k room hk hr hp] at h
              simp only [Option.some.injEq] at h
              have hs : s1 = (enterRoom s s.rooms room k c (msg.getField "roomId")
                  (nameOr (msg.getField "name") "guest") "joined" now).1 := by rw [h]
              refine ⟨by rw [hs, enterRoom_eq], Or.inr ⟨k, ?_⟩⟩
              rw [hs]
              refine enterRoom_admitted s _ _ k c _ _ _ now hk ?_ ?_
              · intro k1 _; rfl
              · simp [hr]
      · have hj' : msg.typeIs "join" = false := by simpa using hj
        by_cases hn : msg.isNull = true
        · simp [onMessage, hn] at h
        · have hn' : msg.isNull = false := by simpa using hn
          rw [onMessage_relay s c msg now hn' hc' hj'] at h
          cases ht : truthy (s.conns c).roomId with
          | false =>
            rw [onRelay_unauth s c msg now ht] at h
            simp only [Option.some.injEq, Prod.mk.injEq] at h
            rw [← h.1]
            exact ⟨rfl, Or.inl ⟨sameRooms_refl _, rfl⟩⟩
          | true =>
            cases hk : toPropertyKey (s.conns c).roomId with
            | none => rw [onRelay_throw s c msg now ht hk] at h; simp at h
            | some k =>
              rw [onRelay_ok s c msg now k ht hk] at h
              simp only [Option.some.injEq, Prod.mk.injEq] at h
              rw [← h.1]
              exact ⟨rfl, Or.inl ⟨broadcast_same _ _ _ _ _ _, rfl⟩⟩

/-- Inversion of the `close` callback. -/
theorem onClose_inv (s s1 : State) (c : ConnId) (now : Nat) (out : List Send)
    (h : onClose s c now = some (s1, out)) :
    s1.conns = s.conns ∧ s1.closed = s.closed ∧
      (s1.rooms = s.rooms ∨
        ∃ k room, truthy (s.conns c).roomId = true ∧ toPropertyKey (s.conns c).roomId = some k ∧
          s.rooms.get k = some room ∧
          ∀ k1, s1.rooms.get k1 =
            if k1 = k then (if setDelete c room.clients = [] then none else some (room.left c now))
            else s.rooms.get k1) := by
  cases ht : truthy (s.conns c).roomId with
  | false =>
    rw [onClose_unauth s c now ht] at h
    simp only [Option.some.injEq, Prod.mk.injEq] at h
    rw [← h.1]
    exact ⟨rfl, rfl, Or.inl rfl⟩
  | true =>
    cases hk : toPropertyKey (s.conns c).roomId with
    | none => rw [onClose_throw s c now ht hk] at h; simp at h
    | some k =>
      cases hr : s.rooms.get k with
      | none =>
        rw [onClose_noroom s c now k ht hk hr] at h
        simp only [Option.some.injEq, Prod.mk.injEq] at h
        rw [← h.1]
        exact ⟨rfl, rfl, Or.inl rfl⟩
      | some room =>
        obtain ⟨s2, out2, h2, hc, hcl, _, hget⟩ := onClose_ok_get s c now k room ht hk hr
        rw [h2] at h
        simp only [Option.some.injEq, Prod.mk.injEq] at h
        rw [← h.1]
        exact ⟨hc, hcl, Or.inr ⟨k, room, rfl, rfl, hr, hget⟩⟩

/-! ## Steps and runs -/

theorem step_message (s : State) (c : ConnId) (raw : Option JVal) (now : Nat)
    (h : c ∉ s.closed) : step s (.message c raw now) = onMessage s c raw now := by
  simp [step, h]

theorem step_message_inv (s s1 : State) (c : ConnId) (raw : Option JVal) (now : Nat)
    (out : List Send) (h : step s (.message c raw now) = some (s1, out)) :
    c ∉ s.closed ∧ onMessage s c raw now = some (s1, out) := by
  by_cases hc : c ∈ s.closed
  · simp [step, hc] at h
  · exact ⟨hc, by simpa [step, hc] using h⟩

theorem step_close_inv (s s1 : State) (c : ConnId) (now : Nat) (out : List Send)
    (h : step s (.close c now) = some (s1, out)) :
    c ∉ s.closed ∧ ∃ s0, onClose s c now = some (s0, out) ∧ s1.rooms = s0.rooms ∧
      s1.conns = s0.conns ∧ s1.closed = c :: s0.closed := by
  by_cases hc : c ∈ s.closed
  · simp [step, hc] at h
  · refine ⟨hc, ?_⟩
    simp only [step, hc, if_false] at h
    cases ho : onClose s c now with
    | none => simp [ho] at h
    | some r =>
      obtain ⟨s0, out0⟩ := r
      simp only [ho, Option.map_some', Option.some.injEq, Prod.mk.injEq] at h
      refine ⟨s0, by rw [← h.2], ?_, ?_, ?_⟩ <;> rw [← h.1]

theorem run_cons (s : State) (e : Event) (es : List Event) (s1 s2 : State)
    (o1 o2 : List Send) (h1 : step s e = some (s1, o1)) (h2 : run s1 es = some (s2, o2)) :
    run s (e :: es) = some (s2, o1 ++ o2) := by
  simp [run, h1, h2]

theorem run_cons_inv (s : State) (e : Event) (es : List Event) (s2 : State) (out : List Send)
    (h : run s (e :: es) = some (s2, out)) :
    ∃ s1 o1 o2, step s e = some (s1, o1) ∧ run s1 es = some (s2, o2) ∧ out = o1 ++ o2 := by
  simp only [run] at h
  cases h1 : step s e with
  | none => simp [h1] at h
  | some r =>
    obtain ⟨s1, o1⟩ := r
    simp only [h1] at h
    cases h2 : run s1 es with
    | none => simp [h2] at h
    | some r2 =>
      obtain ⟨s3, o2⟩ := r2
      simp only [h2, Option.some.injEq, Prod.mk.injEq] at h
      exact ⟨s1, o1, o2, rfl, by rw [← h.1, h2], h.2.symm⟩

theorem run_append (s s1 s2 : State) (a b : List Event) (o1 o2 : List Send)
    (h1 : run s a = some (s1, o1)) (h2 : run s1 b = some (s2, o2)) :
    run s (a ++ b) = some (s2, o1 ++ o2) := by
  induction a generalizing s o1 with
  | nil =>
    simp only [run, Option.some.injEq, Prod.mk.injEq] at h1
    rw [← h1.2, h1.1]
    simpa using h2
  | cons e es ih =>
    obtain ⟨sa, oa, ob, hs, hr, ho⟩ := run_cons_inv s e es s1 o1 h1
    have := ih sa ob hr
    rw [ho, List.append_assoc]
    exact run_cons s e (es ++ b) sa s2 oa (ob ++ o2) hs this

theorem reachable_init : Reachable State.init := ⟨[], [], rfl⟩

theorem reachable_run (s s1 : State) (es : List Event) (out : List Send) (h : Reachable s)
    (hr : run s es = some (s1, out)) : Reachable s1 := by
  obtain ⟨es0, out0, h0⟩ := h
  exact ⟨es0 ++ es, out0 ++ out, run_append _ _ _ _ _ _ _ h0 hr⟩

theorem reachable_step (s s1 : State) (e : Event) (out : List Send) (h : Reachable s)
    (hs : step s e = some (s1, out)) : Reachable s1 :=
  reachable_run s s1 [e] (out ++ []) h (run_cons s e [] s1 s1 out [] hs rfl)

/-- An invariant of start-up that every step keeps holds in every reachable state. -/
theorem reachable_induction (Q : State → Prop) (h0 : Q State.init)
    (hstep : ∀ s e s1 out, Q s → step s e = some (s1, out) → Q s1)
    (s : State) (h : Reachable s) : Q s := by
  obtain ⟨es, out, hr⟩ := h
  have key : ∀ (es : List Event) (s0 s1 : State) (out : List Send),
      Q s0 → run s0 es = some (s1, out) → Q s1 := by
    intro es
    induction es with
    | nil =>
      intro s0 s1 out hq hr
      simp only [run, Option.some.injEq, Prod.mk.injEq] at hr
      rw [← hr.1]; exact hq
    | cons e es ih =>
      intro s0 s1 out hq hr
      obtain ⟨sa, oa, ob, hs, hr2, _⟩ := run_cons_inv s0 e es s1 out hr
      exact ih sa s1 ob (hstep s0 e sa oa hq hs) hr2
  exact key es State.init s out h0 hr

/-- A property of member lists that admissions and departures keep is kept by every step. -/
theorem step_allClients (P : List ConnId → Prop)
    (hadd : ∀ c l, (l = [] ∨ P l) → P (setAdd c l))
    (hdel : ∀ c l, P l → setDelete c l ≠ [] → P (setDelete c l))
    (s s1 : State) (e : Event) (out : List Send) (hs : AllClients P s.rooms)
    (h : step s e = some (s1, out)) : AllClients P s1.rooms := by
  cases e with
  | message c raw now =>
    obtain ⟨_, hm⟩ := step_message_inv s s1 c raw now out h
    obtain ⟨_, hsame | ⟨k, pin0, l0, t0, roomId, name, hold, hget, _, _⟩⟩ :=
      onMessage_inv s s1 c raw now out hm
    · exact allClients_of_same hsame.1 hs
    · intro k1 r1 hr1
      rw [hget k1] at hr1
      by_cases hk : k1 = k
      · simp only [hk, if_true, Option.some.injEq] at hr1
        rw [← hr1]
        apply hadd
        cases hr : s.rooms.get k with
        | none => rw [hr] at hold; exact Or.inl hold
        | some old =>
          rw [hr] at hold
          exact Or.inr (hold.2 ▸ hs k old hr)
      · simp only [hk, if_false] at hr1
        exact hs k1 r1 hr1
  | close c now =>
    obtain ⟨_, s0, hc, hrooms, _, _⟩ := step_close_inv s s1 c now out h
    rw [hrooms]
    obtain ⟨_, _, hsame | ⟨k, room, _, _, hr, hget⟩⟩ := onClose_inv s s0 c now out hc
    · rw [hsame]; exact hs
    · intro k1 r1 hr1
      rw [hget k1] at hr1
      by_cases hk : k1 = k
      · by_cases he : setDelete c room.clients = []
        · simp [hk, he] at hr1
        · simp only [hk, if_true, he, if_false, Option.some.injEq] at hr1
          rw [← hr1]
          exact hdel c room.clients (hs k room hr) he
      · simp only [hk, if_false] at hr1
        exact hs k1 r1 hr1

theorem reachable_allClients (P : List ConnId → Prop)
    (hadd : ∀ c l, (l = [] ∨ P l) → P (setAdd c l))
    (hdel : ∀ c l, P l → setDelete c l ≠ [] → P (setDelete c l))
    (s : State) (h : Reachable s) : AllClients P s.rooms := by
  refine reachable_induction (fun s => AllClients P s.rooms) ?_ ?_ s h
  · intro k r hr
    simp [State.init, Rooms.get] at hr
  · intro s e s1 out hq hs
    exact step_allClients P hadd hdel s s1 e out hq hs

/-- In every reachable state the member lists are duplicate-free: they are sets. -/
theorem reachable_nodup (s : State) (h : Reachable s) (k : String) :
    (membersOf s k).Nodup := by
  have hall := reachable_allClients List.Nodup
    (fun c l hl => by
      rcases hl with hl | hl
      · rw [hl]; exact setAdd_nodup c [] List.nodup_nil
      · exact setAdd_nodup c l hl)
    (fun c l hl _ => setDelete_nodup c l hl) s h
  unfold membersOf
  cases hr : s.rooms.get k with
  | none => exact List.nodup_nil
  | some r => exact hall k r hr

/-- In every reachable state the `roomId` of every socket coerces to a property
key: it is `null` or the `roomId` of a message that was looked up in `rooms`. -/
theorem reachable_roomId_key (s : State) (h : Reachable s) (c : ConnId) :
    ∃ k, toPropertyKey (s.conns c).roomId = some k := by
  refine reachable_induction (fun s => ∀ c, ∃ k, toPropertyKey (s.conns c).roomId = some k)
    ?_ ?_ s h c
  · intro c
    exact ⟨"null", rfl⟩
  · intro s e s1 out hq hs c
    cases e with
    | message c0 raw now =>
      obtain ⟨_, hm⟩ := step_message_inv s s1 c0 raw now out hs
      obtain ⟨_, hsame | ⟨k, pin0, l0, t0, roomId, name, _, _, hconns, hkey⟩⟩ :=
        onMessage_inv s s1 c0 raw now out hm
      · rw [hsame.2]; exact hq c
      · rw [hconns]
        by_cases hc : c = c0
        · exact ⟨k, by simp [setConn, hc, hkey]⟩
        · simpa [setConn, hc] using hq c
    | close c0 now =>
      obtain ⟨_, s0, hc, _, hconns, _⟩ := step_close_inv s s1 c0 now out hs
      obtain ⟨hc0, _, _⟩ := onClose_inv s s0 c0 now out hc
      rw [hconns, hc0]; exact hq c

theorem onMessage_pinStable (s s1 : State) (c : ConnId) (raw : Option JVal) (now : Nat)
    (out : List Send) (h : onMessage s c raw now = some (s1, out)) :
    PinStable s.rooms s1.rooms := by
  obtain ⟨_, hsame | ⟨k, pin0, l0, t0, roomId, name, hold, hget, _, _⟩⟩ :=
    onMessage_inv s s1 c raw now out h
  · exact pinStable_of_same (sameRooms_symm hsame.1)
  · intro k1 r1 hr1
    rw [hget k1]
    by_cases hk : k1 = k
    · subst hk
      rw [hr1] at hold
      exact ⟨⟨pin0, setAdd c l0, t0, now⟩, by simp, hold.1.symm⟩
    · exact ⟨r1, by simp [hk, hr1], rfl⟩

theorem run_messages_pinStable (es : List Event) (s s1 : State) (out : List Send)
    (hes : ∀ e ∈ es, e.isMessage = true) (h : run s es = some (s1, out)) :
    PinStable s.rooms s1.rooms := by
  induction es generalizing s out with
  | nil =>
    simp only [run, Option.some.injEq, Prod.mk.injEq] at h
    rw [← h.1]; exact pinStable_refl _
  | cons e es ih =>
    obtain ⟨sa, oa, ob, hs, hr, _⟩ := run_cons_inv s e es s1 out h
    have he := hes e (List.mem_cons_self _ _)
    have hrest := ih sa ob (fun e' h' => hes e' (List.mem_cons_of_mem _ h')) hr
    cases e with
    | close c now => simp [Event.isMessage] at he
    | message c raw now =>
      obtain ⟨_, hm⟩ := step_message_inv s sa c raw now oa hs
      exact pinStable_trans (onMessage_pinStable s sa c raw now oa hm) hrest

/-! ## What each socket is sent -/

theorem broadcast_fanout_received (rooms : Rooms) (k : String) (room : Room) (frm : ConnId)
    (payload : JVal) (now : Nat) (w : ConnId)
    (hroom : rooms.get k = some room) (hset : room.clients.Nodup) :
    received w (broadcast rooms k frm payload false now).2 =
      if w ∈ room.clients ∧ w ≠ frm then [payload] else [] := by
  simp only [broadcast, hroom, Bool.false_or]
  rw [received_fanout w room.clients _ payload hset]
  simp

theorem received_cons (w : ConnId) (e : Send) (rest : List Send) :
    received w (e :: rest) = (if e.dest = w then [e.payload] else []) ++ received w rest := by
  by_cases h : e.dest = w
  · simp [received, List.filter_cons, h]
  · simp [received, List.filter_cons, h]

theorem enterRoom_received (s : State) (rooms : Rooms) (room : Room) (k : String) (c : ConnId)
    (roomId : Option JVal) (name : JVal) (reply : String) (now : Nat) (w : ConnId)
    (hset : room.clients.Nodup) :
    received w (enterRoom s rooms room k c roomId name reply now).2 =
      if w = c then [replyMsg reply roomId]
      else if w ∈ room.clients then [peerMsg "peer-join" name] else [] := by
  rw [enterRoom_eq]
  simp only [received_cons]
  rw [received_fanout w room.clients _ _ hset]
  by_cases hw : w = c
  · subst hw
    simp
  · have hw' : ¬ c = w := fun e => hw e.symm
    by_cases hm : w ∈ room.clients <;> simp [hw, hw', hm]

theorem membersOf_of_get (s : State) (k : String) (r : Room) (h : s.rooms.get k = some r) :
    membersOf s k = r.clients := by
  simp [membersOf, h]

theorem membersOf_of_none (s : State) (k : String) (h : s.rooms.get k = none) :
    membersOf s k = [] := by
  simp [membersOf, h]

theorem membersOf_same (s s1 : State) (k : String) (h : SameRooms s1.rooms s.rooms) :
    membersOf s1 k = membersOf s k := by
  cases hr : s1.rooms.get k with
  | none =>
    have := h.2 k
    rw [hr] at this
    cases hr0 : s.rooms.get k with
    | none => simp [membersOf, hr, hr0]
    | some r0 => simp [hr0] at this
  | some r =>
    obtain ⟨r0, h0, _, hc⟩ := sameRooms_get h hr
    simp [membersOf, hr, h0, hc]

/-- The state and sends of an admission through `enterRoom`, read at the key. -/
theorem enterRoom_effects (s : State) (rooms : Rooms) (room : Room) (k : String) (c : ConnId)
    (roomId : Option JVal) (name : JVal) (reply : String) (now : Nat)
    (hset : room.clients.Nodup) :
    membersOf (enterRoom s rooms room k c roomId name reply now).1 k = setAdd c room.clients ∧
      c ∈ membersOf (enterRoom s rooms room k c roomId name reply now).1 k ∧
      ((enterRoom s rooms room k c roomId name reply now).1.conns c).roomId = roomId ∧
      ((enterRoom s rooms room k c roomId name reply now).1.conns c).name = name ∧
      ∀ w, received w (enterRoom s rooms room k c roomId name reply now).2 =
        if w = c then [replyMsg reply roomId]
        else if w ∈ room.clients then [peerMsg "peer-join" name] else [] := by
  have hm : membersOf (enterRoom s rooms room k c roomId name reply now).1 k =
      setAdd c room.clients := by
    have := enterRoom_get s rooms room k k c roomId name reply now
    simp only [if_true] at this
    rw [membersOf_of_get _ _ _ this]
    rfl
  refine ⟨hm, ?_, ?_, ?_,
    fun w => enterRoom_received s rooms room k c roomId name reply now w hset⟩
  · rw [hm]
    exact (mem_setAdd c c _).2 (Or.inl rfl)
  · rw [enterRoom_eq]; simp [setConn]
  · rw [enterRoom_eq]; simp [setConn]

/-- The relay branch of the `message` callback, in full. -/
theorem onMessage_relay_spec (s : State) (c : ConnId) (msg : JVal) (now : Nat) (k : String)
    (hauth : truthy (s.conns c).roomId = true)
    (hkey : toPropertyKey (s.conns c).roomId = some k)
    (hnull : msg.isNull = false)
    (hcreate : msg.typeIs "create" = false) (hjoin : msg.typeIs "join" = false)
    (hset : (membersOf s k).Nodup) :
    ∃ s1 out, onMessage s c (some msg) now = some (s1, out) ∧
      s1.conns = s.conns ∧ SameRooms s1.rooms s.rooms ∧
      received c out = [] ∧
      ∀ w, received w out = if w ∈ membersOf s k ∧ w ≠ c then [msg] else [] := by
  rw [onMessage_relay s c msg now hnull hcreate hjoin, onRelay_ok s c msg now k hauth hkey]
  have hall : ∀ w, received w (broadcast s.rooms k c msg false now).2 =
      if w ∈ membersOf s k ∧ w ≠ c then [msg] else [] := by
    intro w
    cases hr : s.rooms.get k with
    | none =>
      rw [broadcast_none _ _ _ _ _ _ hr, membersOf_of_none s k hr]
      simp [received]
    | some room =>
      rw [membersOf_of_get s k room hr] at hset ⊢
      exact broadcast_fanout_received s.rooms k room c msg now w hr hset
  refine ⟨_, _, rfl, rfl, broadcast_same _ _ _ _ _ _, ?_, hall⟩
  rw [hall c]
  simp

/-! ## Claims -/

/-- C1. For a room in the registry under key `k` (its member set duplicate-free,
as every `Set` is), `broadcast` with `includeSelf = false` sends `payload` exactly
once to each member other than `frm`, nothing to `frm`, nothing to a non-member. -/
theorem broadcast_excludes_sender (rooms : Rooms) (k : String) (room : Room) (frm : ConnId)
    (payload : JVal) (now : Nat) (w : ConnId)
    (hroom : rooms.get k = some room) (hset : room.clients.Nodup) :
    received w (broadcast rooms k frm payload false now).2 =
      if w ∈ room.clients ∧ w ≠ frm then [payload] else [] :=
  broadcast_fanout_received rooms k room frm payload now w hroom hset

/-- C1, members {0,1,2} and sender 0: 1 and 2 get the payload once, 0 and 7 get nothing. -/
theorem broadcast_excludes_sender_witness :
    received 1 (broadcast [("R1", roomABC)] "R1" 0 msgPlay false 9).2 = [msgPlay] ∧
    received 2 (broadcast [("R1", roomABC)] "R1" 0 msgPlay false 9).2 = [msgPlay] ∧
    received 0 (broadcast [("R1", roomABC)] "R1" 0 msgPlay false 9).2 = [] ∧
    received 7 (broadcast [("R1", roomABC)] "R1" 0 msgPlay false 9).2 = [] :=
  ⟨(broadcast_excludes_sender [("R1", roomABC)] "R1" roomABC 0 msgPlay 9 1 rfl (by decide)).trans
      (by simp [roomABC]),
    (broadcast_excludes_sender [("R1", roomABC)] "R1" roomABC 0 msgPlay 9 2 rfl (by decide)).trans
      (by simp [roomABC]),
    (broadcast_excludes_sender [("R1", roomABC)] "R1" roomABC 0 msgPlay 9 0 rfl (by decide)).trans
      (by simp [roomABC]),
    (broadcast_excludes_sender [("R1", roomABC)] "R1" roomABC 0 msgPlay 9 7 rfl (by decide)).trans
      (by simp [roomABC])⟩

/-- C2. Once a room exists under key `k` with pin `p`: (1) a `create` or `join` on
that key whose pin is not `p` gets one error reply, to the caller only, and leaves
every socket's `roomId` and `name`, every room's pin and member set and the
listing as they were; (2) after any sequence of messages the room is still there
with pin `p`; (3) a `create` that finds no room under its key makes the room with
its own pin, which therefore stays the pin through all later messages. -/
theorem pin_fixed_after_creation :
    (∀ (s : State) (k : String) (room : Room) (c : ConnId) (msg : JVal) (now : Nat),
        s.rooms.get k = some room →
        (msg.typeIs "create" = true ∨ msg.typeIs "join" = true) →
        toPropertyKey (msg.getField "roomId") = some k →
        strictEq room.pin (msg.getField "pin") = false →
        ∃ s1 text, onMessage s c (some msg) now = some (s1, [⟨c, errorMsg text⟩]) ∧
          s1.conns = s.conns ∧ SameRooms s1.rooms s.rooms) ∧
    (∀ (s : State) (k : String) (room : Room) (es : List Event) (s1 : State) (out : List Send),
        s.rooms.get k = some room →
        (∀ e ∈ es, e.isMessage = true) →
        run s es = some (s1, out) →
        ∃ r, s1.rooms.get k = some r ∧ r.pin = room.pin) ∧
    (∀ (s0 : State) (k : String) (c0 : ConnId) (m0 : JVal) (t0 : Nat) (es : List Event)
        (s1 : State) (out : List Send),
        m0.typeIs "create" = true →
        truthy (m0.getField "roomId") = true → truthy (m0.getField "pin") = true →
        toPropertyKey (m0.getField "roomId") = some k →
        s0.rooms.get k = none →
        (∀ e ∈ es, e.isMessage = true) →
        run s0 (.message c0 (some m0) t0 :: es) = some (s1, out) →
        ∃ r, s1.rooms.get k = some r ∧ r.pin = m0.getField "pin") := by
  refine ⟨?_, ?_, ?_⟩
  · intro s k room c msg now hroom htype hkey hpin
    rcases htype with hc | hj
    · rw [onMessage_create s c msg now hc]
      by_cases h12 : (truthy (msg.getField "roomId") && truthy (msg.getField "pin")) = true
      · have h1 : truthy (msg.getField "roomId") = true := by
          cases hx : truthy (msg.getField "roomId") <;> simp_all
        have h2 : truthy (msg.getField "pin") = true := by
          cases hx : truthy (msg.getField "pin") <;> simp_all
        rw [onCreate_mismatch s c msg now k room h1 h2 hkey hroom hpin]
        exact ⟨_, "PIN mismatch for existing room", rfl, rfl,
          sameRooms_touch k _ room s.rooms hroom rfl⟩
      · have h12' : (truthy (msg.getField "roomId") && truthy (msg.getField "pin")) = false := by
          simpa using h12
        rw [onCreate_missing s c msg now h12']
        exact ⟨s, "roomId and pin required", rfl, rfl, sameRooms_refl _⟩
    · rw [onMessage_join s c msg now hj, onJoin_mismatch s c msg now k room hkey hroom hpin]
      exact ⟨s, "Wrong PIN", rfl, rfl, sameRooms_refl _⟩
  · intro s k room es s1 out hroom hes hrun
    exact run_messages_pinStable es s s1 out hes hrun k room hroom
  · intro s0 k c0 m0 t0 es s1 out hc h1 h2 hkey hnone hes hrun
    obtain ⟨sa, oa, ob, hs, hr, _⟩ := run_cons_inv s0 _ es s1 out hrun
    obtain ⟨_, hm⟩ := step_message_inv s0 sa c0 (some m0) t0 oa hs
    rw [onMessage_create s0 c0 m0 t0 hc, onCreate_new s0 c0 m0 t0 k h1 h2 hkey hnone] at hm
    simp only [Option.some.injEq] at hm
    have hget := enterRoom_get s0 (s0.rooms.set k ⟨m0.getField "pin", [], t0, t0⟩)
      ⟨m0.getField "pin", [], t0, t0⟩ k k c0 (m0.getField "roomId")
      (nameOr (m0.getField "name") "host") "created" t0
    rw [hm] at hget
    simp only [if_true] at hget
    exact run_messages_pinStable es sa s1 ob hes hr k _ hget

/-- C2 on the scenario: after `create{R1, 123456}` from socket 0, a `join` with pin
`000000` from socket 1 is refused, and that `join`, a `create{R1, 000000}` from socket
2 and a `join` with the right pin leave the pin `123456`. -/
theorem pin_fixed_after_creation_witness :
    (∃ s1 text,
      onMessage (stateAfter [.message 0 (some msgCreateR1) 1]) 1 (some msgJoinR1Wrong) 2 =
        some (s1, [⟨1, errorMsg text⟩]) ∧
      s1.conns = (stateAfter [.message 0 (some msgCreateR1) 1]).conns ∧
      SameRooms s1.rooms (stateAfter [.message 0 (some msgCreateR1) 1]).rooms) ∧
    (∃ r, (stateAfter [.message 0 (some msgCreateR1) 1, .message 1 (some msgJoinR1Wrong) 2,
        .message 2 (some msgCreateR1Wrong) 3, .message 1 (some msgJoinR1) 4]).rooms.get "R1" =
          some r ∧ r.pin = some (.str "123456")) ∧
    (∃ r, (stateAfter [.message 0 (some msgCreateR1) 1, .message 1 (some msgJoinR1Wrong) 2,
        .message 2 (some msgCreateR1Wrong) 3, .message 1 (some msgJoinR1) 4]).rooms.get "R1" =
          some r ∧
        r.pin = msgCreateR1.getField "pin") :=
  ⟨pin_fixed_after_creation.1 (stateAfter [.message 0 (some msgCreateR1) 1]) "R1"
      ⟨some (.str "123456"), [0], 1, 1⟩ 1 msgJoinR1Wrong 2 rfl (Or.inr rfl) rfl rfl,
    pin_fixed_after_creation.2.1 (stateAfter [.message 0 (some msgCreateR1) 1]) "R1"
      ⟨some (.str "123456"), [0], 1, 1⟩
      [.message 1 (some msgJoinR1Wrong) 2, .message 2 (some msgCreateR1Wrong) 3,
        .message 1 (some msgJoinR1) 4] _ _ rfl
      (by decide) rfl,
    pin_fixed_after_creation.2.2 State.init "R1" 0 msgCreateR1 1
      [.message 1 (some msgJoinR1Wrong) 2, .message 2 (some msgCreateR1Wrong) 3,
        .message 1 (some msgJoinR1) 4] _ _
      rfl rfl rfl rfl rfl (by decide) rfl⟩

/-- C3, evaluated: socket 0 creates `R1` and then creates `R2`; it is now in the
member set of both rooms, while its `roomId` names `R2` only. -/
theorem member_of_two_rooms :
    membersOf (stateAfter [.message 0 (some msgCreateR1) 1, .message 0 (some msgCreateR2) 2])
        "R1" = [0] ∧
      membersOf (stateAfter [.message 0 (some msgCreateR1) 1, .message 0 (some msgCreateR2) 2])
        "R2" = [0] ∧
      toPropertyKey ((stateAfter [.message 0 (some msgCreateR1) 1,
        .message 0 (some msgCreateR2) 2]).conns 0).roomId = some "R2" := by
  refine ⟨by decide, by decide, by decide⟩

/-- C4. In every reachable state every room of the registry has a member; and a
step that brings a room into the registry is a message whose sender is then the
room's only member. -/
theorem rooms_never_empty (s : State) (h : Reachable s) :
    (∀ k r, s.rooms.get k = some r → r.clients ≠ []) ∧
    (∀ e s1 out k r, step s e = some (s1, out) → s.rooms.get k = none →
      s1.rooms.get k = some r → ∃ c raw now, e = .message c raw now ∧ r.clients = [c]) := by
  refine ⟨?_, ?_⟩
  · exact reachable_allClients (fun l => l ≠ [])
      (fun c l _ => setAdd_ne_nil c l) (fun _ _ _ hne => hne) s h
  · intro e s1 out k r hs hnone hsome
    cases e with
    | message c raw now =>
      refine ⟨c, raw, now, rfl, ?_⟩
      obtain ⟨_, hm⟩ := step_message_inv s s1 c raw now out hs
      obtain ⟨_, hsame | ⟨k0, pin0, l0, t0, roomId, name, hold, hget, _, _⟩⟩ :=
        onMessage_inv s s1 c raw now out hm
      · have := hsame.1.2 k
        rw [hnone, hsome] at this
        simp at this
      · rw [hget k] at hsome
        by_cases hk : k = k0
        · subst hk
          rw [hnone] at hold
          simp only [if_true, Option.some.injEq] at hsome
          rw [← hsome, hold]
          simp [setAdd]
        · simp only [hk, if_false] at hsome
          rw [hnone] at hsome
          simp at hsome
    | close c now =>
      obtain ⟨_, s0, hc, hrooms, _, _⟩ := step_close_inv s s1 c now out hs
      rw [hrooms] at hsome
      obtain ⟨_, _, hsame | ⟨k0, room, _, _, hr, hget⟩⟩ := onClose_inv s s0 c now out hc
      · rw [hsame, hnone] at hsome
        simp at hsome
      · rw [hget k] at hsome
        by_cases hk : k = k0
        · subst hk
          rw [hnone] at hr
          simp at hr
        · simp only [hk, if_false] at hsome
          rw [hnone] at hsome
          simp at hsome

/-- C4 on the scenario: after socket 0 has created `R1`, the room has a member, and
the `create` of `R2` by socket 0 brings in `R2` with socket 0 as only member. -/
theorem rooms_never_empty_witness :
    (⟨some (.str "123456"), [0], 1, 1⟩ : Room).clients ≠ [] ∧
    ∃ c raw now, Event.message 0 (some msgCreateR2) 2 = .message c raw now ∧
      (⟨some (.str "654321"), [0], 2, 2⟩ : Room).clients = [c] :=
  ⟨(rooms_never_empty (stateAfter [.message 0 (some msgCreateR1) 1])
      ⟨[.message 0 (some msgCreateR1) 1], _, rfl⟩).1 "R1" ⟨some (.str "123456"), [0], 1, 1⟩ rfl,
    (rooms_never_empty (stateAfter [.message 0 (some msgCreateR1) 1])
      ⟨[.message 0 (some msgCreateR1) 1], _, rfl⟩).2 (.message 0 (some msgCreateR2) 2) _ _ "R2"
      ⟨some (.str "654321"), [0], 2, 2⟩ rfl rfl rfl⟩

/-- C8, evaluated: sockets 0 and 1 are admitted to `R1` (two admissions), socket 1
then creates `R2`, and both sockets close (two departures of members of `R1`): the
member set of `R1` still has size 1 and `R1` is still looked up and listed. -/
theorem member_count_off :
    (membersOf (stateAfter [.message 0 (some msgCreateR1) 1, .message 1 (some msgJoinR1) 2,
        .message 1 (some msgCreateR2) 3, .close 1 4, .close 0 5]) "R1").length = 1 ∧
      ((stateAfter [.message 0 (some msgCreateR1) 1, .message 1 (some msgJoinR1) 2,
        .message 1 (some msgCreateR2) 3, .close 1 4, .close 0 5]).rooms.get "R1").isSome = true ∧
      listIds (stateAfter [.message 0 (some msgCreateR1) 1, .message 1 (some msgJoinR1) 2,
        .message 1 (some msgCreateR2) 3, .close 1 4, .close 0 5]) = ["R1"] := by
  refine ⟨by decide, by decide, by decide⟩

/-- C9, evaluated: socket 0 creates `R1`, creates `R2` and closes; it was the only
socket ever admitted and it is closed, yet `R1` is still listed and the health
count is 1. -/
theorem room_outlives_members :
    (stateAfter [.message 0 (some msgCreateR1) 1, .message 0 (some msgCreateR2) 2,
        .close 0 3]).closed = [0] ∧
      listIds (stateAfter [.message 0 (some msgCreateR1) 1, .message 0 (some msgCreateR2) 2,
        .close 0 3]) = ["R1"] ∧
      healthCount (stateAfter [.message 0 (some msgCreateR1) 1, .message 0 (some msgCreateR2) 2,
        .close 0 3]) = 1 ∧
      membersOf (stateAfter [.message 0 (some msgCreateR1) 1, .message 0 (some msgCreateR2) 2,
        .close 0 3]) "R1" = [0] := by
  refine ⟨by decide, by decide, by decide, by decide⟩

/-- C5 refuted on the scenario: socket 0 is in `R1`; its message of type `create`
is answered to socket 0 itself, makes room `R2` with socket 0 in it and moves its
`roomId` to `R2`; and on the decoded message `null` the handler throws. -/
theorem relay_any_type_counterexample :
    truthy ((stateAfter [.message 0 (some msgCreateR1) 1]).conns 0).roomId = true ∧
    (onMessage (stateAfter [.message 0 (some msgCreateR1) 1]) 0 (some msgCreateR2) 2).map
        (fun r => received 0 r.2) = some [replyMsg "created" (some (.str "R2"))] ∧
    membersOf (stateAfter [.message 0 (some msgCreateR1) 1]) "R2" = [] ∧
    (onMessage (stateAfter [.message 0 (some msgCreateR1) 1]) 0 (some msgCreateR2) 2).map
        (fun r => membersOf r.1 "R2") = some [0] ∧
    (onMessage (stateAfter [.message 0 (some msgCreateR1) 1]) 0 (some msgCreateR2) 2).map
        (fun r => toPropertyKey (r.1.conns 0).roomId) = some (some "R2") ∧
    onMessage (stateAfter [.message 0 (some msgCreateR1) 1]) 0 (some .null) 2 = none :=
  ⟨rfl, rfl, rfl, rfl, rfl, rfl⟩

/-- C5, amended. In a reachable state, for a socket whose `roomId` is set and a
decoded message that is not `null` and whose type is neither `create` nor `join`:
the `roomId` names a key `k`; the handler returns, leaves every socket's `roomId`
and `name`, every room's pin and member set and the listing as they were, sends
nothing to the sender, and sends the message itself exactly once to each other
member of the room at `k` and to nobody else. -/
theorem relay_verbatim (s : State) (c : ConnId) (msg : JVal) (now : Nat)
    (hreach : Reachable s)
    (hauth : truthy (s.conns c).roomId = true)
    (hnull : msg.isNull = false)
    (hcreate : msg.typeIs "create" = false) (hjoin : msg.typeIs "join" = false) :
    ∃ k, toPropertyKey (s.conns c).roomId = some k ∧
      ∃ s1 out, onMessage s c (some msg) now = some (s1, out) ∧
        s1.conns = s.conns ∧ SameRooms s1.rooms s.rooms ∧
        received c out = [] ∧
        ∀ w, received w out = if w ∈ membersOf s k ∧ w ≠ c then [msg] else [] := by
  obtain ⟨k, hkey⟩ := reachable_roomId_key s hreach c
  exact ⟨k, hkey, onMessage_relay_spec s c msg now k hauth hkey hnull hcreate hjoin
    (reachable_nodup s hreach k)⟩

/-- C5 amended, on the scenario: sockets 0 and 1 are in `R1`; `play` from socket 0
reaches socket 1 once and unmodified, and socket 0 gets nothing. -/
theorem relay_verbatim_witness :
    ∃ k, toPropertyKey (stateAB.conns 0).roomId = some k ∧
      ∃ s1 out, onMessage stateAB 0 (some msgPlay) 3 = some (s1, out) ∧
        s1.conns = stateAB.conns ∧ SameRooms s1.rooms stateAB.rooms ∧
        received 0 out = [] ∧
        ∀ w, received w out = if w ∈ membersOf stateAB k ∧ w ≠ 0 then [msgPlay] else [] :=
  relay_verbatim stateAB 0 msgPlay 3
    ⟨[.message 0 (some msgCreateR1) 1, .message 1 (some msgJoinR1) 2], _, rfl⟩
    (by decide) rfl rfl rfl

/-- C6. A `create` that passes its checks (non-empty `roomId` and `pin`, and no room
under the key or one with the same pin), respectively a `join` that passes its
checks (a room under the key, with the same pin): the handler returns; the caller
is in the member set of the room at the key; its `roomId` is the requested one and
its name the supplied one or the default; the caller is sent exactly the reply
`created{roomId}`, respectively `joined{roomId}`; every other member of that room
is sent exactly one `peer-join{name}`; nobody else is sent anything. -/
theorem admission_effects (s : State) (c : ConnId) (msg : JVal) (now : Nat) (k : String)
    (hkey : toPropertyKey (msg.getField "roomId") = some k)
    (hset : (membersOf s k).Nodup) :
    (msg.typeIs "create" = true →
      truthy (msg.getField "roomId") = true → truthy (msg.getField "pin") = true →
      (∀ old, s.rooms.get k = some old → strictEq old.pin (msg.getField "pin") = true) →
      ∃ s1 out, onMessage s c (some msg) now = some (s1, out) ∧
        membersOf s1 k = setAdd c (membersOf s k) ∧ c ∈ membersOf s1 k ∧
        (s1.conns c).roomId = msg.getField "roomId" ∧
        (s1.conns c).name = nameOr (msg.getField "name") "host" ∧
        ∀ w, received w out =
          if w = c then [replyMsg "created" (msg.getField "roomId")]
          else if w ∈ membersOf s k then
            [peerMsg "peer-join" (nameOr (msg.getField "name") "host")]
          else []) ∧
    (msg.typeIs "join" = true →
      (∃ room, s.rooms.get k = some room ∧ strictEq room.pin (msg.getField "pin") = true) →
      ∃ s1 out, onMessage s c (some msg) now = some (s1, out) ∧
        membersOf s1 k = setAdd c (membersOf s k) ∧ c ∈ membersOf s1 k ∧
        (s1.conns c).roomId = msg.getField "roomId" ∧
        (s1.conns c).name = nameOr (msg.getField "name") "guest" ∧
        ∀ w, received w out =
          if w = c then [replyMsg "joined" (msg.getField "roomId")]
          else if w ∈ membersOf s k then
            [peerMsg "peer-join" (nameOr (msg.getField "name") "guest")]
          else []) := by
  refine ⟨?_, ?_⟩
  · intro hc h1 h2 hpin
    rw [onMessage_create s c msg now hc]
    cases hr : s.rooms.get k with
    | none =>
      rw [onCreate_new s c msg now k h1 h2 hkey hr, membersOf_of_none s k hr]
      obtain ⟨e1, e0, e2, e3, e4⟩ := enterRoom_effects s
        (s.rooms.set k ⟨msg.getField "pin", [], now, now⟩) ⟨msg.getField "pin", [], now, now⟩
        k c (msg.getField "roomId") (nameOr (msg.getField "name") "host") "created" now
        List.nodup_nil
      exact ⟨_, _, rfl, e1, e0, e2, e3, e4⟩
    | some old =>
      rw [onCreate_existing s c msg now k old h1 h2 hkey hr (hpin old hr)]
      rw [membersOf_of_get s k old hr] at hset ⊢
      obtain ⟨e1, e0, e2, e3, e4⟩ := enterRoom_effects s
        (s.rooms.set k { old with lastActive := now }) { old with lastActive := now }
        k c (msg.getField "roomId") (nameOr (msg.getField "name") "host") "created" now hset
      exact ⟨_, _, rfl, e1, e0, e2, e3, e4⟩
  · intro hj hroom
    obtain ⟨room, hr, hp⟩ := hroom
    rw [onMessage_join s c msg now hj, onJoin_ok s c msg now k room hkey hr hp]
    rw [membersOf_of_get s k room hr] at hset ⊢
    obtain ⟨e1, e0, e2, e3, e4⟩ := enterRoom_effects s s.rooms room
      k c (msg.getField "roomId") (nameOr (msg.getField "name") "guest") "joined" now hset
    exact ⟨_, _, rfl, e1, e0, e2, e3, e4⟩

/-- C6 on the scenario: after socket 0 created `R1` with pin `123456`,
`join{R1, 123456, Bob}` from socket 1 yields `joined{R1}` to socket 1 and
`peer-join{Bob}` to socket 0; the `create` of socket 0 itself yields `created{R1}`
to socket 0 only. -/
theorem admission_effects_witness :
    (∃ s1 out, onMessage State.init 0 (some msgCreateR1) 1 = some (s1, out) ∧
        membersOf s1 "R1" = setAdd 0 (membersOf State.init "R1") ∧ 0 ∈ membersOf s1 "R1" ∧
        (s1.conns 0).roomId = msgCreateR1.getField "roomId" ∧
        (s1.conns 0).name = nameOr (msgCreateR1.getField "name") "host" ∧
        ∀ w, received w out =
          if w = 0 then [replyMsg "created" (msgCreateR1.getField "roomId")]
          else if w ∈ membersOf State.init "R1" then
            [peerMsg "peer-join" (nameOr (msgCreateR1.getField "name") "host")]
          else []) ∧
    (∃ s1 out, onMessage (stateAfter [.message 0 (some msgCreateR1) 1]) 1 (some msgJoinR1) 2 =
          some (s1, out) ∧
        membersOf s1 "R1" = setAdd 1 (membersOf (stateAfter [.message 0 (some msgCreateR1) 1]) "R1") ∧
        1 ∈ membersOf s1 "R1" ∧
        (s1.conns 1).roomId = msgJoinR1.getField "roomId" ∧
        (s1.conns 1).name = nameOr (msgJoinR1.getField "name") "guest" ∧
        ∀ w, received w out =
          if w = 1 then [replyMsg "joined" (msgJoinR1.getField "roomId")]
          else if w ∈ membersOf (stateAfter [.message 0 (some msgCreateR1) 1]) "R1" then
            [peerMsg "peer-join" (nameOr (msgJoinR1.getField "name") "guest")]
          else []) ∧
    received 1 (sendsAfter [.message 0 (some msgCreateR1) 1, .message 1 (some msgJoinR1) 2]) =
      [replyMsg "joined" (some (.str "R1"))] ∧
    received 0 (sendsAfter [.message 0 (some msgCreateR1) 1, .message 1 (some msgJoinR1) 2]) =
      [replyMsg "created" (some (.str "R1")), peerMsg "peer-join" (.str "Bob")] :=
  ⟨(admission_effects State.init 0 msgCreateR1 1 "R1" rfl (by decide)).1 rfl rfl rfl
      (fun old h => by simp [State.init, Rooms.get] at h),
    (admission_effects (stateAfter [.message 0 (some msgCreateR1) 1]) 1 msgJoinR1 2 "R1" rfl
      (by decide)).2 rfl ⟨⟨some (.str "123456"), [0], 1, 1⟩, rfl, rfl⟩,
    rfl, rfl⟩

/-- The `close` callback on a socket whose `roomId` is truthy and names the room
at key `k` (the two tests of line 137): the handler
returns; the socket is no longer in that member set; `peer-leave{name}` with its
name is sent exactly once to every socket that was a member other than the closing
one, and nothing to any other socket (so to nobody who joins later); the room
stays under `k`, with the remaining members and its pin, if a member remains, and
is gone from lookup and listing otherwise. -/
theorem close_effects (s : State) (c : ConnId) (now : Nat) (k : String) (room : Room)
    (hauth : truthy (s.conns c).roomId = true)
    (hkey : toPropertyKey (s.conns c).roomId = some k)
    (hroom : s.rooms.get k = some room) (hset : room.clients.Nodup) :
    ∃ s1 out, onClose s c now = some (s1, out) ∧
      c ∉ membersOf s1 k ∧
      (∀ w, received w out =
        if w ∈ room.clients ∧ w ≠ c then [peerMsg "peer-leave" (s.conns c).name] else []) ∧
      ((∃ w, w ∈ room.clients ∧ w ≠ c) →
        k ∈ listIds s1 ∧ ∃ r1, s1.rooms.get k = some r1 ∧ r1.pin = room.pin ∧
          ∀ w, w ∈ r1.clients ↔ w ∈ room.clients ∧ w ≠ c) ∧
      ((∀ w, w ∈ room.clients → w = c) → s1.rooms.get k = none ∧ k ∉ listIds s1) := by
  obtain ⟨s1, out, h1, _, _, hout, hget⟩ := onClose_ok_get s c now k room hauth hkey hroom
  have hk := hget k
  simp only [if_true] at hk
  refine ⟨s1, out, h1, ?_, ?_, ?_, ?_⟩
  · unfold membersOf
    by_cases he : setDelete c room.clients = []
    · simp [hk, he]
    · simp [hk, he, Room.left, mem_setDelete]
  · intro w
    rw [hout]
    have := received_fanout w room.clients (fun x => x != c)
      (peerMsg "peer-leave" (s.conns c).name) hset
    simp only [setDelete]
    rw [this]
    simp
  · rintro ⟨w, hw, hne⟩
    have he : setDelete c room.clients ≠ [] := by
      intro h0
      have : w ∈ setDelete c room.clients := (mem_setDelete c w _).2 ⟨hw, hne⟩
      rw [h0] at this
      simp at this
    simp only [he, if_false] at hk
    refine ⟨?_, room.left c now, hk, rfl, fun w1 => mem_setDelete c w1 _⟩
    by_contra hmem
    have := (Rooms.get_eq_none_iff k s1.rooms).2 hmem
    rw [hk] at this
    simp at this
  · intro hall
    have he : setDelete c room.clients = [] := by
      apply List.eq_nil_iff_forall_not_mem.2
      intro w hw
      have := (mem_setDelete c w _).1 hw
      exact this.2 (hall w this.1)
    simp only [he, if_true] at hk
    exact ⟨hk, (Rooms.get_eq_none_iff k s1.rooms).1 hk⟩

/-- The `close` callback on the scenario: sockets 0 and 1 are in `R1`; when socket 1
closes, socket 0 is sent `peer-leave{Bob}` and the room stays; when socket 0 closes as well the
listing is empty. -/
theorem close_effects_witness :
    (∃ s1 out,
      onClose (stateAfter [.message 0 (some msgCreateR1) 1, .message 1 (some msgJoinR1) 2]) 1 3 =
        some (s1, out) ∧
      1 ∉ membersOf s1 "R1" ∧
      (∀ w, received w out =
        if w ∈ (⟨some (.str "123456"), [0, 1], 1, 2⟩ : Room).clients ∧ w ≠ 1 then
          [peerMsg "peer-leave" ((stateAfter [.message 0 (some msgCreateR1) 1,
            .message 1 (some msgJoinR1) 2]).conns 1).name]
        else []) ∧
      ((∃ w, w ∈ (⟨some (.str "123456"), [0, 1], 1, 2⟩ : Room).clients ∧ w ≠ 1) →
        "R1" ∈ listIds s1 ∧ ∃ r1, s1.rooms.get "R1" = some r1 ∧
          r1.pin = (⟨some (.str "123456"), [0, 1], 1, 2⟩ : Room).pin ∧
          ∀ w, w ∈ r1.clients ↔ w ∈ (⟨some (.str "123456"), [0, 1], 1, 2⟩ : Room).clients ∧ w ≠ 1) ∧
      ((∀ w, w ∈ (⟨some (.str "123456"), [0, 1], 1, 2⟩ : Room).clients → w = 1) →
        s1.rooms.get "R1" = none ∧ "R1" ∉ listIds s1)) ∧
    received 0 (sendsAfter [.message 0 (some msgCreateR1) 1, .message 1 (some msgJoinR1) 2,
      .close 1 3]) =
      [replyMsg "created" (some (.str "R1")), peerMsg "peer-join" (.str "Bob"),
        peerMsg "peer-leave" (.str "Bob")] ∧
    listIds (stateAfter [.message 0 (some msgCreateR1) 1, .message 1 (some msgJoinR1) 2,
      .close 1 3]) = ["R1"] ∧
    listIds (stateAfter [.message 0 (some msgCreateR1) 1, .message 1 (some msgJoinR1) 2,
      .close 1 3, .close 0 4]) = [] :=
  ⟨close_effects (stateAfter [.message 0 (some msgCreateR1) 1, .message 1 (some msgJoinR1) 2])
      1 3 "R1" ⟨some (.str "123456"), [0, 1], 1, 2⟩ rfl rfl rfl (by decide),
    rfl, by decide, by decide⟩

/-- C10. From a reachable state, socket `a`, whose `roomId` is set, has its relayed
message `m1` handled, then the events `mid` are handled, then its relayed message
`m2` (its `roomId` is still set). The whole is one run, and what any socket `w` is
sent in it is: `m1` itself if `w` was another member of the room of `a`, then what
`mid` sends to `w`, then `m2` itself if `w` is then another member of the room of
`a`. So a socket that gets both gets `m1` before `m2`, each unmodified. -/
theorem relay_order (s s1 s2 s3 : State) (a : ConnId) (m1 m2 : JVal) (t1 t2 : Nat)
    (mid : List Event) (o1 o2 o3 : List Send)
    (hreach : Reachable s)
    (hm1 : m1.isNull = false ∧ m1.typeIs "create" = false ∧ m1.typeIs "join" = false)
    (hm2 : m2.isNull = false ∧ m2.typeIs "create" = false ∧ m2.typeIs "join" = false)
    (ha1 : truthy (s.conns a).roomId = true)
    (h1 : step s (.message a (some m1) t1) = some (s1, o1))
    (hmid : run s1 mid = some (s2, o2))
    (ha2 : truthy (s2.conns a).roomId = true)
    (h2 : step s2 (.message a (some m2) t2) = some (s3, o3)) :
    ∃ k1 k2, toPropertyKey (s.conns a).roomId = some k1 ∧
      toPropertyKey (s2.conns a).roomId = some k2 ∧
      run s (.message a (some m1) t1 :: (mid ++ [.message a (some m2) t2])) =
        some (s3, o1 ++ o2 ++ o3) ∧
      ∀ w, received w (o1 ++ o2 ++ o3) =
        (if w ∈ membersOf s k1 ∧ w ≠ a then [m1] else []) ++ received w o2 ++
          (if w ∈ membersOf s2 k2 ∧ w ≠ a then [m2] else []) := by
  have hreach2 : Reachable s2 :=
    reachable_run s1 s2 mid o2 (reachable_step s s1 _ o1 hreach h1) hmid
  obtain ⟨k1, hk1⟩ := reachable_roomId_key s hreach a
  obtain ⟨k2, hk2⟩ := reachable_roomId_key s2 hreach2 a
  obtain ⟨_, hx1⟩ := step_message_inv s s1 a (some m1) t1 o1 h1
  obtain ⟨_, hx2⟩ := step_message_inv s2 s3 a (some m2) t2 o3 h2
  obtain ⟨_, _, hy1, _, _, _, hall1⟩ :=
    onMessage_relay_spec s a m1 t1 k1 ha1 hk1 hm1.1 hm1.2.1 hm1.2.2 (reachable_nodup s hreach k1)
  obtain ⟨_, _, hy2, _, _, _, hall2⟩ :=
    onMessage_relay_spec s2 a m2 t2 k2 ha2 hk2 hm2.1 hm2.2.1 hm2.2.2
      (reachable_nodup s2 hreach2 k2)
  rw [hx1] at hy1
  rw [hx2] at hy2
  simp only [Option.some.injEq, Prod.mk.injEq] at hy1 hy2
  refine ⟨k1, k2, hk1, hk2, ?_, fun w => ?_⟩
  · have hlast : run s2 [.message a (some m2) t2] = some (s3, o3 ++ []) :=
      run_cons s2 _ [] s3 s3 o3 [] h2 rfl
    have := run_cons s _ (mid ++ [.message a (some m2) t2]) s1 s3 o1 (o2 ++ (o3 ++ [])) h1
      (run_append s1 s2 s3 mid _ o2 (o3 ++ []) hmid hlast)
    simpa [List.append_assoc] using this
  · rw [received_append, received_append, hy1.2, hy2.2, hall1 w, hall2 w]

/-- C10 on the scenario: sockets 0 and 1 are the members of `R1`; socket 0 sends `play`
and then `seek{time:42}`; the two messages are one run and socket 1 is sent exactly
`[play, seek{time:42}]`. -/
theorem relay_order_witness :
    run stateAB (.message 0 (some msgPlay) 3 :: ([] ++ [.message 0 (some msgSeek) 4])) =
      some (runState stateAB [.message 0 (some msgPlay) 3, .message 0 (some msgSeek) 4],
        runSends stateAB [.message 0 (some msgPlay) 3] ++ [] ++
          runSends (runState stateAB [.message 0 (some msgPlay) 3])
            [.message 0 (some msgSeek) 4]) ∧
    received 1 (runSends stateAB [.message 0 (some msgPlay) 3] ++ [] ++
      runSends (runState stateAB [.message 0 (some msgPlay) 3])
        [.message 0 (some msgSeek) 4]) = [msgPlay, msgSeek] :=
  have h := relay_order stateAB (runState stateAB [.message 0 (some msgPlay) 3])
    (runState stateAB [.message 0 (some msgPlay) 3])
    (runState stateAB [.message 0 (some msgPlay) 3, .message 0 (some msgSeek) 4])
    0 msgPlay msgSeek 3 4 [] (runSends stateAB [.message 0 (some msgPlay) 3]) []
    (runSends (runState stateAB [.message 0 (some msgPlay) 3]) [.message 0 (some msgSeek) 4])
    ⟨[.message 0 (some msgCreateR1) 1, .message 1 (some msgJoinR1) 2], _, rfl⟩
    ⟨rfl, rfl, rfl⟩ ⟨rfl, rfl, rfl⟩ (by decide) rfl rfl (by decide) rfl
  match h with
  | ⟨k1, k2, hk1, hk2, hrun, hall⟩ =>
    have e1 : k1 = "R1" := by
      have : toPropertyKey (stateAB.conns 0).roomId = some "R1" := rfl
      rw [this] at hk1
      exact (Option.some.inj hk1).symm
    have e2 : k2 = "R1" := by
      have : toPropertyKey ((runState stateAB [.message 0 (some msgPlay) 3]).conns 0).roomId =
          some "R1" := rfl
      rw [this] at hk2
      exact (Option.some.inj hk2).symm
    ⟨hrun, by rw [hall 1, e1, e2]; rfl⟩

/-! ## Sends that throw: the loop of `broadcast` -/

theorem broadcastLoop_eq (fails : ConnId → Bool) (frm : ConnId) (payload : JVal)
    (includeSelf : Bool) (clients : List ConnId) :
    broadcastLoop fails frm payload includeSelf clients =
      some ((clients.filter (fun w => (includeSelf || w != frm) && !fails w)).map
        (fun w => (⟨w, payload⟩ : Send))) := by
  induction clients with
  | nil => simp [broadcastLoop]
  | cons w rest ih =>
    by_cases hskip : (!includeSelf && w == frm) = true
    · have hf : ((includeSelf || w != frm) && !fails w) = false := by
        cases includeSelf <;> simp_all
      simp only [broadcastLoop, hskip, if_true, ih, List.filter_cons, hf]
      simp
    · have hkeep : (includeSelf || w != frm) = true := by
        cases includeSelf <;> simp_all
      by_cases hw : fails w = true
      · simp [broadcastLoop, hskip, ih, List.filter_cons, hkeep, hw, wsSend, tryCatch]
      · have hw' : fails w = false := by simpa using hw
        simp [broadcastLoop, hskip, ih, List.filter_cons, hkeep, hw', wsSend, tryCatch]

/-- With failing sends `broadcast` leaves the registry that the failure-free
`broadcast` leaves, and puts on the wire its sends to the sockets that do not fail. -/
theorem broadcastWith_eq_filter (fails : ConnId → Bool) (rooms : Rooms) (k : String)
    (frm : ConnId) (payload : JVal) (includeSelf : Bool) (now : Nat) :
    broadcastWith fails rooms k frm payload includeSelf now =
      some ((broadcast rooms k frm payload includeSelf now).1,
        (broadcast rooms k frm payload includeSelf now).2.filter (fun e => !fails e.dest)) := by
  cases hr : rooms.get k with
  | none => simp [broadcastWith, broadcast, hr]
  | some room =>
    simp only [broadcastWith, broadcast, hr, broadcastLoop_eq, List.filter_map, List.filter_filter]
    congr 3
    apply List.filter_congr
    intro w _
    simp [Bool.and_comm]

/-- C11. When the sends to the sockets in `fails` throw, `broadcast` (with
`includeSelf = false`, on a room in the registry whose member set is
duplicate-free) returns normally, and the payload goes exactly once to each member
that is not the sender and whose send does not fail, and to nobody else, wherever
the failing members stand in the iteration. -/
theorem broadcast_survives_send_failure (fails : ConnId → Bool) (rooms : Rooms) (k : String)
    (room : Room) (frm : ConnId) (payload : JVal) (now : Nat) (w : ConnId)
    (hroom : rooms.get k = some room) (hset : room.clients.Nodup) :
    ∃ rooms1 delivered,
      broadcastWith fails rooms k frm payload false now = some (rooms1, delivered) ∧
      received w delivered =
        if w ∈ room.clients ∧ w ≠ frm ∧ fails w = false then [payload] else [] := by
  refine ⟨rooms.set k { room with lastActive := now },
    (room.clients.filter (fun w => (false || w != frm) && !fails w)).map
      (fun w => (⟨w, payload⟩ : Send)), ?_, ?_⟩
  · simp only [broadcastWith, hroom, broadcastLoop_eq]
  · rw [received_fanout w room.clients _ payload hset]
    by_cases h1 : w ∈ room.clients <;> by_cases h2 : w = frm <;>
      cases h3 : fails w <;> simp [h1, h2, h3]

/-- C11 on the room with members 0, 1, 2 and sender 0: when the send to 1 (the first
socket tried) throws, 2 still gets the payload once and 1 gets nothing; when the
send to 2 (the last one) throws, 1 gets it once. -/
theorem broadcast_survives_send_failure_witness :
    (∃ rooms1 delivered,
      broadcastWith (fun x => x == 1) [("R1", roomABC)] "R1" 0 msgPlay false 9 =
        some (rooms1, delivered) ∧
      received 2 delivered =
        if 2 ∈ roomABC.clients ∧ 2 ≠ 0 ∧ (fun x => x == 1) 2 = false then [msgPlay] else []) ∧
    (∃ rooms1 delivered,
      broadcastWith (fun x => x == 1) [("R1", roomABC)] "R1" 0 msgPlay false 9 =
        some (rooms1, delivered) ∧
      received 1 delivered =
        if 1 ∈ roomABC.clients ∧ 1 ≠ 0 ∧ (fun x => x == 1) 1 = false then [msgPlay] else []) ∧
    (∃ rooms1 delivered,
      broadcastWith (fun x => x == 2) [("R1", roomABC)] "R1" 0 msgPlay false 9 =
        some (rooms1, delivered) ∧
      received 1 delivered =
        if 1 ∈ roomABC.clients ∧ 1 ≠ 0 ∧ (fun x => x == 2) 1 = false then [msgPlay] else []) ∧
    (broadcastWith (fun x => x == 1) [("R1", roomABC)] "R1" 0 msgPlay false 9).map
      (fun r => r.2.map (fun e => e.dest)) = some [2] :=
  ⟨broadcast_survives_send_failure (fun x => x == 1) [("R1", roomABC)] "R1" roomABC 0 msgPlay 9 2
      rfl (by decide),
    broadcast_survives_send_failure (fun x => x == 1) [("R1", roomABC)] "R1" roomABC 0 msgPlay 9 1
      rfl (by decide),
    broadcast_survives_send_failure (fun x => x == 2) [("R1", roomABC)] "R1" roomABC 0 msgPlay 9 1
      rfl (by decide),
    by decide⟩

/-- C12. A `join` whose `roomId` names a key that is not in the registry: the
handler returns, the only send is the reply `error: 'Room not found'` to the
caller, and the state (every room, every socket's `roomId` and `name`) is as it was. -/
theorem join_unknown_room (s : State) (c : ConnId) (msg : JVal) (now : Nat) (k : String)
    (hjoin : msg.typeIs "join" = true)
    (hkey : toPropertyKey (msg.getField "roomId") = some k)
    (hroom : s.rooms.get k = none) :
    onMessage s c (some msg) now = some (s, [⟨c, errorMsg "Room not found"⟩]) ∧
      k ∉ listIds s := by
  rw [onMessage_join s c msg now hjoin, onJoin_missing s c msg now k hkey hroom]
  exact ⟨rfl, (Rooms.get_eq_none_iff k s.rooms).1 hroom⟩

/-- C12 on the scenario: socket 1 joins `R1` before anyone has created it. -/
theorem join_unknown_room_witness :
    onMessage State.init 1 (some msgJoinR1) 1 =
        some (State.init, [⟨1, errorMsg "Room not found"⟩]) ∧
      "R1" ∉ listIds State.init :=
  join_unknown_room State.init 1 msgJoinR1 1 "R1" rfl rfl rfl

/-- C15. A payload that `JSON.parse` rejects, on any socket and in any state: the
handler returns, sends nothing to anyone and leaves the state as it was. -/
theorem malformed_payload_dropped (s : State) (c : ConnId) (now : Nat) :
    onMessage s c none now = some (s, []) ∧
      (c ∉ s.closed → step s (.message c none now) = some (s, [])) := by
  refine ⟨rfl, fun h => ?_⟩
  simp [step, h, onMessage]

/-! ## The `message` callback, case by case -/

theorem strictEq_eq (a b : Option JVal) (h : strictEq a b = true) : a = b := by
  rcases a with _ | (_ | a | a | a | a | a) <;> rcases b with _ | (_ | b | b | b | b | b) <;>
    simp_all [strictEq]

theorem errorMsg_not_reply (text : String) : (errorMsg text).isReply = false := by
  simp [JVal.isReply, JVal.typeIs, errorMsg, mkObj, JVal.getField, strictEq]

theorem noAdmission_error (s : State) (c : ConnId) (text : String) :
    NoAdmission s s c (safeSend c (errorMsg text)) := by
  refine ⟨sameRooms_refl _, rfl, rfl, ?_⟩
  intro e he _
  simp only [safeSend, List.mem_singleton] at he
  rw [he]
  exact errorMsg_not_reply text

theorem enterRoom_admittedBy (s : State) (rooms : Rooms) (room : Room) (k : String)
    (c : ConnId) (msg : JVal) (reply dflt : String) (now : Nat)
    (hkind : (msg.typeIs "create" = true ∧ reply = "created" ∧ dflt = "host") ∨
      (msg.typeIs "join" = true ∧ reply = "joined" ∧ dflt = "guest"))
    (hkey : toPropertyKey (msg.getField "roomId") = some k)
    (hrest : ∀ k1, k1 ≠ k → rooms.get k1 = s.rooms.get k1)
    (hpin : room.pin = msg.getField "pin")
    (hold : ∀ old, s.rooms.get k = some old → old.pin = msg.getField "pin")
    (hmem : room.clients = membersOf s k)
    (hnew : s.rooms.get k = none →
      truthy (msg.getField "roomId") = true ∧ truthy (msg.getField "pin") = true) :
    AdmittedBy s (enterRoom s rooms room k c (msg.getField "roomId")
        (nameOr (msg.getField "name") dflt) reply now).1 c msg
      (enterRoom s rooms room k c (msg.getField "roomId")
        (nameOr (msg.getField "name") dflt) reply now).2 now := by
  refine ⟨k, room.createdAt, reply, dflt, hkind, hkey, hold, fun k1 => ?_, ?_, ?_, ?_, hnew⟩
  · rw [enterRoom_get]
    by_cases h1 : k1 = k
    · simp [h1, Room.entered, hpin, hmem]
    · simp [h1, hrest k1 h1]
  · rw [enterRoom_eq]
  · rw [enterRoom_eq]
  · rw [enterRoom_eq, hmem]

/-- Inversion of the `message` callback with its sends: a run that returns either
admits nobody, or is a `create` or `join` that admits the sender. -/
theorem onMessage_cases (s s1 : State) (c : ConnId) (raw : Option JVal) (now : Nat)
    (out : List Send) (h : onMessage s c raw now = some (s1, out)) :
    NoAdmission s s1 c out ∨ ∃ msg, raw = some msg ∧ AdmittedBy s s1 c msg out now := by
  cases raw with
  | none =>
    simp only [onMessage, Option.some.injEq, Prod.mk.injEq] at h
    rw [← h.1, ← h.2]
    exact Or.inl ⟨sameRooms_refl _, rfl, rfl, by simp⟩
  | some msg =>
    by_cases hc : msg.typeIs "create" = true
    · rw [onMessage_create s c msg now hc] at h
      by_cases h12 : (truthy (msg.getField "roomId") && truthy (msg.getField "pin")) = true
      · have h1 : truthy (msg.getField "roomId") = true := by
          cases hx : truthy (msg.getField "roomId") <;> simp_all
        have h2 : truthy (msg.getField "pin") = true := by
          cases hx : truthy (msg.getField "pin") <;> simp_all
        cases hk : toPropertyKey (msg.getField "roomId") with
        | none => rw [onCreate_throw s c msg now h1 h2 hk] at h; simp at h
        | some k =>
          cases hr : s.rooms.get k with
          | none =>
            rw [onCreate_new s c msg now k h1 h2 hk hr] at h
            simp only [Option.some.injEq] at h
            refine Or.inr ⟨msg, rfl, ?_⟩
            have := enterRoom_admittedBy s (s.rooms.set k ⟨msg.getField "pin", [], now, now⟩)
              ⟨msg.getField "pin", [], now, now⟩ k c msg "created" "host" now
              (Or.inl ⟨hc, rfl, rfl⟩) hk (fun k1 h1 => Rooms.get_set_ne k k1 _ _ h1) rfl
              (fun old ho => by rw [hr] at ho; simp at ho)
              (by rw [membersOf_of_none s k hr]) (fun _ => ⟨h1, h2⟩)
            rw [h] at this
            exact this
          | some old =>
            cases hp : strictEq old.pin (msg.getField "pin") with
            | false =>
              rw [onCreate_mismatch s c msg now k old h1 h2 hk hr hp] at h
              simp only [Option.some.injEq, Prod.mk.injEq] at h
              rw [← h.1, ← h.2]
              refine Or.inl ⟨sameRooms_touch k _ old s.rooms hr rfl, rfl, rfl, ?_⟩
              intro e he _
              simp only [safeSend, List.mem_singleton] at he
              rw [he]
              exact errorMsg_not_reply _
            | true =>
              rw [onCreate_existing s c msg now k old h1 h2 hk hr hp] at h
              simp only [Option.some.injEq] at h
              refine Or.inr ⟨msg, rfl, ?_⟩
              have hpe := strictEq_eq _ _ hp
              have := enterRoom_admittedBy s (s.rooms.set k { old with lastActive := now })
                { old with lastActive := now } k c msg "created" "host" now
                (Or.inl ⟨hc, rfl, rfl⟩) hk (fun k1 h1 => Rooms.get_set_ne k k1 _ _ h1) hpe
                (fun old1 ho => by
                  rw [hr] at ho
                  rw [← Option.some.inj ho]
                  exact hpe)
                (by rw [membersOf_of_get s k old hr])
                (fun hn => by rw [hr] at hn; simp at hn)
              rw [h] at this
              exact this
      · have h12' : (truthy (msg.getField "roomId") && truthy (msg.getField "pin")) = false := by
          simpa using h12
        rw [onCreate_missing s c msg now h12'] at h
        simp only [Option.some.injEq, Prod.mk.injEq] at h
        rw [← h.1, ← h.2]
        exact Or.inl (noAdmission_error s c _)
    · have hc' : msg.typeIs "create" = false := by simpa using hc
      by_cases hj : msg.typeIs "join" = true
      · rw [onMessage_join s c msg now hj] at h
        cases hk : toPropertyKey (msg.getField "roomId") with
        | none => rw [onJoin_throw s c msg now hk] at h; simp at h
        | some k =>
          cases hr : s.rooms.get k with
          | none =>
            rw [onJoin_missing s c msg now k hk hr] at h
            simp only [Option.some.injEq, Prod.mk.injEq] at h
            rw [← h.1, ← h.2]
            exact Or.inl (noAdmission_error s c _)
          | some room =>
            cases hp : strictEq room.pin (msg.getField "pin") with
            | false =>
              rw [onJoin_mismatch s c msg now k room hk hr hp] at h
              simp only [Option.some.injEq, Prod.mk.injEq] at h
              rw [← h.1, ← h.2]
              exact Or.inl (noAdmission_error s c _)
            | true =>
              rw [onJoin_ok s c msg now k room hk hr hp] at h
              simp only [Option.some.injEq] at h
              refine Or.inr ⟨msg, rfl, ?_⟩
              have hpe := strictEq_eq _ _ hp
              have := enterRoom_admittedBy s s.rooms room k c msg "joined" "guest" now
                (Or.inr ⟨hj, rfl, rfl⟩) hk (fun k1 _ => rfl) hpe
                (fun old1 ho => by
                  rw [hr] at ho
                  rw [← Option.some.inj ho]
                  exact hpe)
                (by rw [membersOf_of_get s k room hr])
                (fun hn => by rw [hr] at hn; simp at hn)
              rw [h] at this
              exact this
      · have hj' : msg.typeIs "join" = false := by simpa using hj
        by_cases hn : msg.isNull = true
        · simp [onMessage, hn] at h
        · have hn' : msg.isNull = false := by simpa using hn
          rw [onMessage_relay s c msg now hn' hc' hj'] at h
          cases ht : truthy (s.conns c).roomId with
          | false =>
            rw [onRelay_unauth s c msg now ht] at h
            simp only [Option.some.injEq, Prod.mk.injEq] at h
            rw [← h.1, ← h.2]
            exact Or.inl (noAdmission_error s c _)
          | true =>
            cases hk : toPropertyKey (s.conns c).roomId with
            | none => rw [onRelay_throw s c msg now ht hk] at h; simp at h
            | some k =>
              rw [onRelay_ok s c msg now k ht hk] at h
              simp only [Option.some.injEq, Prod.mk.injEq] at h
              rw [← h.1, ← h.2]
              refine Or.inl ⟨broadcast_same _ _ _ _ _ _, rfl, rfl, ?_⟩
              intro e he hd
              exact absurd hd (broadcast_sends s.rooms k c msg now e he).2.1

/-! ## Invariants of membership -/

theorem authorised_mono (hist : List Event) (e : Event) (s : State) (h : Authorised hist s) :
    Authorised (hist ++ [e]) s := by
  intro k room c hr hc
  obtain ⟨msg, now, hm, rest⟩ := h k room c hr hc
  exact ⟨msg, now, List.mem_append_left _ hm, rest⟩

theorem step_authorised (hist : List Event) (s s1 : State) (e : Event) (out : List Send)
    (hs : Authorised hist s) (h : step s e = some (s1, out)) :
    Authorised (hist ++ [e]) s1 := by
  have hmono := authorised_mono hist e s hs
  cases e with
  | message c0 raw now =>
    obtain ⟨_, hm⟩ := step_message_inv s s1 c0 raw now out h
    rcases onMessage_cases s s1 c0 raw now out hm with hno | ⟨msg, hraw, hadm⟩
    · intro k room c hr hc
      obtain ⟨r0, h0, hp, hcl⟩ := sameRooms_get hno.1 hr
      obtain ⟨m, t, hmem, hty, hkey, hpin⟩ := hmono k r0 c h0 (hcl ▸ hc)
      exact ⟨m, t, hmem, hty, hkey, hpin.trans hp⟩
    · obtain ⟨k0, t0, reply, dflt, hkind, hkey, hold, hget, _, _, _⟩ := hadm
      intro k room c hr hc
      rw [hget k] at hr
      by_cases hk : k = k0
      · subst hk
        simp only [if_true, Option.some.injEq] at hr
        rw [← hr] at hc ⊢
        rcases (mem_setAdd c0 c _).1 hc with hcc | hcm
        · subst hcc
          refine ⟨msg, now, ?_, ?_, hkey, rfl⟩
          · rw [hraw]; simp
          · rcases hkind with hk1 | hk1
            · exact Or.inl hk1.1
            · exact Or.inr hk1.1
        · cases hro : s.rooms.get k with
          | none => rw [membersOf_of_none s k hro] at hcm; simp at hcm
          | some old =>
            rw [membersOf_of_get s k old hro] at hcm
            obtain ⟨m, t, hmem, hty, hkey1, hpin⟩ := hmono k old c hro hcm
            exact ⟨m, t, hmem, hty, hkey1, hpin.trans (hold old hro)⟩
      · simp only [hk, if_false] at hr
        exact hmono k room c hr hc
  | close c0 now =>
    obtain ⟨_, s0, hc0, hrooms, _, _⟩ := step_close_inv s s1 c0 now out h
    obtain ⟨_, _, hsame | ⟨k0, room0, _, _, hr0, hget⟩⟩ := onClose_inv s s0 c0 now out hc0
    · intro k room c hr hc
      rw [hrooms, hsame] at hr
      exact hmono k room c hr hc
    · intro k room c hr hc
      rw [hrooms, hget k] at hr
      by_cases hk : k = k0
      · subst hk
        by_cases he : setDelete c0 room0.clients = []
        · simp [he] at hr
        · simp only [if_true, he, if_false, Option.some.injEq] at hr
          rw [← hr] at hc ⊢
          have hc' : c ∈ room0.clients := ((mem_setDelete c0 c _).1 hc).1
          exact hmono k room0 c hr0 hc'
      · simp only [hk, if_false] at hr
        exact hmono k room c hr hc

theorem run_authorised (es hist : List Event) (s s1 : State) (out : List Send)
    (hs : Authorised hist s) (h : run s es = some (s1, out)) :
    Authorised (hist ++ es) s1 := by
  induction es generalizing hist s out with
  | nil =>
    simp only [run, Option.some.injEq, Prod.mk.injEq] at h
    rw [← h.1]
    simpa using hs
  | cons e es ih =>
    obtain ⟨sa, oa, ob, hstep, hr, _⟩ := run_cons_inv s e es s1 out h
    have := ih (hist ++ [e]) sa ob (step_authorised hist s sa e oa hs hstep) hr
    simpa [List.append_assoc] using this

theorem step_bound (s s1 : State) (e : Event) (out : List Send) (hs : Bound s)
    (h : step s e = some (s1, out)) : Bound s1 := by
  cases e with
  | message c0 raw now =>
    obtain ⟨_, hm⟩ := step_message_inv s s1 c0 raw now out h
    rcases onMessage_cases s s1 c0 raw now out hm with hno | ⟨msg, _, hadm⟩
    · obtain ⟨hsame, hconns, hclosed, _⟩ := hno
      intro c hopen hset
      rw [hclosed] at hopen
      rw [hconns] at hset ⊢
      obtain ⟨k, room, hkey, hr, hc⟩ := hs c hopen hset
      obtain ⟨r1, h1, _, hcl⟩ := sameRooms_get (sameRooms_symm hsame) hr
      exact ⟨k, r1, hkey, h1, hcl ▸ hc⟩
    · obtain ⟨k0, t0, reply, dflt, _, hkey0, _, hget, hconns, hclosed, _⟩ := hadm
      intro c hopen hset
      rw [hclosed] at hopen
      rw [hconns] at hset ⊢
      by_cases hcc : c = c0
      · subst hcc
        refine ⟨k0, ⟨msg.getField "pin", setAdd c (membersOf s k0), t0, now⟩,
          by simpa [setConn] using hkey0, by rw [hget k0]; simp, ?_⟩
        exact (mem_setAdd c c _).2 (Or.inl rfl)
      · simp only [setConn, hcc, if_false] at hset ⊢
        obtain ⟨k, room, hkey, hr, hc⟩ := hs c hopen hset
        by_cases hk : k = k0
        · subst hk
          refine ⟨k, ⟨msg.getField "pin", setAdd c0 (membersOf s k), t0, now⟩, hkey,
            by rw [hget k]; simp, ?_⟩
          rw [membersOf_of_get s k room hr]
          exact (mem_setAdd c0 c _).2 (Or.inr hc)
        · exact ⟨k, room, hkey, by rw [hget k]; simp [hk, hr], hc⟩
  | close c0 now =>
    obtain ⟨_, s0, hc0, hrooms, hconns, hclosed⟩ := step_close_inv s s1 c0 now out h
    obtain ⟨hconns0, hclosed0, hcase⟩ := onClose_inv s s0 c0 now out hc0
    intro c hopen hset
    rw [hclosed, hclosed0] at hopen
    have hne : c ≠ c0 := fun e => hopen (e ▸ List.mem_cons_self _ _)
    have hopen' : c ∉ s.closed := fun hm => hopen (List.mem_cons_of_mem _ hm)
    rw [hconns, hconns0] at hset ⊢
    obtain ⟨k, room, hkey, hr, hc⟩ := hs c hopen' hset
    rcases hcase with hsame | ⟨k0, room0, _, _, hr0, hget⟩
    · exact ⟨k, room, hkey, by rw [hrooms, hsame]; exact hr, hc⟩
    · by_cases hk : k = k0
      · subst hk
        rw [hr] at hr0
        have hrr : room = room0 := Option.some.inj hr0
        subst hrr
        have hin : c ∈ setDelete c0 room.clients := (mem_setDelete c0 c _).2 ⟨hc, hne⟩
        have he : setDelete c0 room.clients ≠ [] := by
          intro h0
          rw [h0] at hin
          simp at hin
        exact ⟨k, room.left c0 now, hkey, by rw [hrooms, hget k]; simp [he], hin⟩
      · exact ⟨k, room, hkey, by rw [hrooms, hget k]; simp [hk, hr], hc⟩

/-- In every reachable state every room has a non-empty (truthy) pin. -/
theorem reachable_pin_truthy (s : State) (h : Reachable s) (k : String) (room : Room)
    (hr : s.rooms.get k = some room) : truthy room.pin = true := by
  refine reachable_induction
    (fun s => ∀ k room, s.rooms.get k = some room → truthy room.pin = true) ?_ ?_ s h k room hr
  · intro k room hr
    simp [State.init, Rooms.get] at hr
  · intro s e s1 out hq hs k room hr
    cases e with
    | message c0 raw now =>
      obtain ⟨_, hm⟩ := step_message_inv s s1 c0 raw now out hs
      rcases onMessage_cases s s1 c0 raw now out hm with hno | ⟨msg, _, hadm⟩
      · obtain ⟨r0, h0, hp, _⟩ := sameRooms_get hno.1 hr
        rw [← hp]
        exact hq k r0 h0
      · obtain ⟨k0, t0, reply, dflt, _, _, hold, hget, _, _, _, hnew⟩ := hadm
        rw [hget k] at hr
        by_cases hk : k = k0
        · subst hk
          simp only [if_true, Option.some.injEq] at hr
          rw [← hr]
          cases hro : s.rooms.get k with
          | none => exact (hnew hro).2
          | some old =>
            have := hq k old hro
            rw [hold old hro] at this
            exact this
        · simp only [hk, if_false] at hr
          exact hq k room hr
    | close c0 now =>
      obtain ⟨_, s0, hc0, hrooms, _, _⟩ := step_close_inv s s1 c0 now out hs
      rw [hrooms] at hr
      obtain ⟨_, _, hsame | ⟨k0, room0, _, _, hr0, hget⟩⟩ := onClose_inv s s0 c0 now out hc0
      · rw [hsame] at hr
        exact hq k room hr
      · rw [hget k] at hr
        by_cases hk : k = k0
        · subst hk
          by_cases he : setDelete c0 room0.clients = []
          · simp [he] at hr
          · simp only [if_true, he, if_false, Option.some.injEq] at hr
            rw [← hr]
            exact hq k room0 hr0
        · simp only [hk, if_false] at hr
          exact hq k room hr

theorem reachable_bound (s : State) (h : Reachable s) : Bound s := by
  refine reachable_induction Bound ?_ ?_ s h
  · intro c _ hset
    simp [State.init, Conn.fresh, truthy] at hset
  · intro s e s1 out hq hs
    exact step_bound s s1 e out hq hs

/-- C18. After any run from start-up, every socket in the member set of a room
has, in that run, a `create` or `join` message of its own whose `roomId` names
that room and whose pin is that room's pin. -/
theorem pin_authorisation (es : List Event) (s : State) (out : List Send)
    (hrun : run State.init es = some (s, out))
    (k : String) (room : Room) (c : ConnId)
    (hroom : s.rooms.get k = some room) (hmem : c ∈ room.clients) :
    ∃ msg now, Event.message c (some msg) now ∈ es ∧
      (msg.typeIs "create" = true ∨ msg.typeIs "join" = true) ∧
      toPropertyKey (msg.getField "roomId") = some k ∧ msg.getField "pin" = room.pin := by
  have h0 : Authorised [] State.init := by
    intro k room c hr
    simp [State.init, Rooms.get] at hr
  have := run_authorised es [] State.init s out h0 hrun
  simpa using this k room c hroom hmem

/-- C18 on the scenario: after Alice created `R1`, Bob tried pin `000000` and then
joined with `123456`, Bob is a member and the run holds his `join` with the pin of
the room. -/
theorem pin_authorisation_witness :
    ∃ msg now, Event.message 1 (some msg) now ∈
        [Event.message 0 (some msgCreateR1) 1, Event.message 1 (some msgJoinR1Wrong) 2,
          Event.message 1 (some msgJoinR1) 3] ∧
      (msg.typeIs "create" = true ∨ msg.typeIs "join" = true) ∧
      toPropertyKey (msg.getField "roomId") = some "R1" ∧
      msg.getField "pin" = (⟨some (.str "123456"), [0, 1], 1, 3⟩ : Room).pin :=
  pin_authorisation
    [.message 0 (some msgCreateR1) 1, .message 1 (some msgJoinR1Wrong) 2,
      .message 1 (some msgJoinR1) 3] _ _ rfl "R1" ⟨some (.str "123456"), [0, 1], 1, 3⟩ 1 rfl
    (by decide)

/-- C19. In every reachable state, an open socket whose `roomId` is set names a
key under which there is a room, and it is in that room's member set; so when it
relays, `broadcast` finds the room, and when it closes, the `close` callback finds
the room and removes it. -/
theorem roomId_names_live_room (s : State) (c : ConnId) (hreach : Reachable s)
    (hopen : c ∉ s.closed) (hset : truthy (s.conns c).roomId = true) :
    ∃ k room, toPropertyKey (s.conns c).roomId = some k ∧ s.rooms.get k = some room ∧
      c ∈ room.clients ∧
      (∀ msg now, broadcast s.rooms k c msg false now =
        (s.rooms.set k { room with lastActive := now },
          (room.clients.filter (fun w => false || w != c)).map (fun w => (⟨w, msg⟩ : Send)))) ∧
      (∀ now, onClose s c now =
        some (⟨roomsAfterLeave s.rooms k room c now, s.conns, s.closed⟩,
          (setDelete c room.clients).map
            (fun w => (⟨w, peerMsg "peer-leave" (s.conns c).name⟩ : Send)))) := by
  obtain ⟨k, room, hkey, hr, hc⟩ := reachable_bound s hreach c hopen hset
  exact ⟨k, room, hkey, hr, hc,
    fun msg now => broadcast_some s.rooms k c msg false now room hr,
    fun now => onClose_ok s c now k room hset hkey hr⟩

/-- C19 on the scenario: Bob (socket 1), open and in `R1`. -/
theorem roomId_names_live_room_witness :
    ∃ k room, toPropertyKey (stateAB.conns 1).roomId = some k ∧
      stateAB.rooms.get k = some room ∧ 1 ∈ room.clients ∧
      (∀ msg now, broadcast stateAB.rooms k 1 msg false now =
        (stateAB.rooms.set k { room with lastActive := now },
          (room.clients.filter (fun w => false || w != 1)).map (fun w => (⟨w, msg⟩ : Send)))) ∧
      (∀ now, onClose stateAB 1 now =
        some (⟨roomsAfterLeave stateAB.rooms k room 1 now, stateAB.conns, stateAB.closed⟩,
          (setDelete 1 room.clients).map
            (fun w => (⟨w, peerMsg "peer-leave" (stateAB.conns 1).name⟩ : Send)))) :=
  roomId_names_live_room stateAB 1
    ⟨[.message 0 (some msgCreateR1) 1, .message 1 (some msgJoinR1) 2], _, rfl⟩
    (by decide) (by decide)

/-! ## Names -/

theorem typeIs_join_not_create (msg : JVal) (h : msg.typeIs "join" = true) :
    msg.typeIs "create" = false := by
  cases msg <;> simp_all [JVal.typeIs, JVal.getField, strictEq]
  rename_i kvs
  cases hf : (List.find? (fun p => p.1 == "type") kvs.reverse) with
  | none => simp [hf, strictEq] at h
  | some p =>
    obtain ⟨a, v⟩ := p
    simp only [hf, Option.map_some'] at h ⊢
    cases v <;> simp_all [strictEq]

theorem nameOr_truthy (name : Option JVal) (dflt : String) (h : truthy name = true) :
    some (nameOr name dflt) = name := by
  cases name with
  | none => simp [truthy] at h
  | some v => simp [nameOr, h]

theorem nameOr_falsy (name : Option JVal) (dflt : String) (h : truthy name = false) :
    nameOr name dflt = .str dflt := by
  cases name with
  | none => rfl
  | some v => simp [nameOr, h]

/-- The sends of the `close` callback: `peer-leave` with the name of the closing
socket, never to the closing socket. -/
theorem onClose_sends (s s1 : State) (c : ConnId) (now : Nat) (out : List Send)
    (h : onClose s c now = some (s1, out)) :
    ∀ e ∈ out, e.payload = peerMsg "peer-leave" (s.conns c).name ∧ e.dest ≠ c := by
  cases ht : truthy (s.conns c).roomId with
  | false =>
    rw [onClose_unauth s c now ht] at h
    simp only [Option.some.injEq, Prod.mk.injEq] at h
    rw [← h.2]; simp
  | true =>
    cases hk : toPropertyKey (s.conns c).roomId with
    | none => rw [onClose_throw s c now ht hk] at h; simp at h
    | some k =>
      cases hr : s.rooms.get k with
      | none =>
        rw [onClose_noroom s c now k ht hk hr] at h
        simp only [Option.some.injEq, Prod.mk.injEq] at h
        rw [← h.2]; simp
      | some room =>
        rw [onClose_ok s c now k room ht hk hr] at h
        simp only [Option.some.injEq, Prod.mk.injEq] at h
        rw [← h.2]
        intro e he
        simp only [List.mem_map] at he
        obtain ⟨w, hw, rfl⟩ := he
        exact ⟨rfl, ((mem_setDelete c w _).1 hw).2⟩

/-- A step that is not a `create` or `join` of the socket `c` leaves the fields of `c`. -/
theorem step_keeps_conn (s s1 : State) (e : Event) (out : List Send) (c : ConnId)
    (hno : e.admissionBy c = false) (h : step s e = some (s1, out)) :
    s1.conns c = s.conns c := by
  cases e with
  | message c0 raw now =>
    obtain ⟨_, hm⟩ := step_message_inv s s1 c0 raw now out h
    rcases onMessage_cases s s1 c0 raw now out hm with hn | ⟨msg, hraw, hadm⟩
    · rw [hn.2.1]
    · obtain ⟨k0, t0, reply, dflt, hkind, _, _, _, hconns, _, _⟩ := hadm
      rw [hconns]
      by_cases hcc : c = c0
      · subst hcc
        rw [hraw] at hno
        rcases hkind with hk | hk <;> simp [Event.admissionBy, hk.1] at hno
      · simp [setConn, hcc]
  | close c0 now =>
    obtain ⟨_, s0, hc0, _, hconns, _⟩ := step_close_inv s s1 c0 now out h
    obtain ⟨hconns0, _, _⟩ := onClose_inv s s0 c0 now out hc0
    rw [hconns, hconns0]

theorem run_keeps_conn (es : List Event) (s s1 : State) (out : List Send) (c : ConnId)
    (hno : ∀ e ∈ es, e.admissionBy c = false) (h : run s es = some (s1, out)) :
    s1.conns c = s.conns c := by
  induction es generalizing s out with
  | nil =>
    simp only [run, Option.some.injEq, Prod.mk.injEq] at h
    rw [← h.1]
  | cons e es ih =>
    obtain ⟨sa, oa, ob, hs, hr, _⟩ := run_cons_inv s e es s1 out h
    rw [ih sa ob (fun e' h' => hno e' (List.mem_cons_of_mem _ h')) hr]
    exact step_keeps_conn s sa e oa c (hno e (List.mem_cons_self _ _)) hs

/-- The error reply to a message that is neither `create` nor `join`, from a socket
without `roomId`; the state stays as it was. -/
theorem onMessage_not_in_room (s : State) (c : ConnId) (msg : JVal) (now : Nat)
    (hnull : msg.isNull = false)
    (hcreate : msg.typeIs "create" = false) (hjoin : msg.typeIs "join" = false)
    (hunauth : truthy (s.conns c).roomId = false) :
    onMessage s c (some msg) now = some (s, [⟨c, errorMsg "Not in a room"⟩]) := by
  rw [onMessage_relay s c msg now hnull hcreate hjoin, onRelay_unauth s c msg now hunauth]
  rfl

/-- The error reply to a `create` without `roomId` or without `pin`; the state
stays as it was. -/
theorem onMessage_create_missing (s : State) (c : ConnId) (msg : JVal) (now : Nat)
    (hcreate : msg.typeIs "create" = true)
    (hempty : truthy (msg.getField "roomId") = false ∨ truthy (msg.getField "pin") = false) :
    onMessage s c (some msg) now = some (s, [⟨c, errorMsg "roomId and pin required"⟩]) := by
  rw [onMessage_create s c msg now hcreate, onCreate_missing s c msg now]
  · rfl
  · rcases hempty with h | h <;> simp [h]

/-- C13, evaluated: the `create` whose `roomId` is the empty array passes the test
`!msg.roomId` (an array is truthy) and makes a room under the empty key: the
listing is `[""]`. -/
theorem empty_room_id :
    truthy (msgCreateEmptyKey.getField "roomId") = true ∧
      toPropertyKey (msgCreateEmptyKey.getField "roomId") = some "" ∧
      listIds (stateAfter [.message 0 (some msgCreateEmptyKey) 1]) = [""] ∧
      membersOf (stateAfter [.message 0 (some msgCreateEmptyKey) 1]) "" = [0] := by
  refine ⟨by decide, by decide, by decide, by decide⟩

/-- C14, evaluated: socket 1 has no `roomId`; the decoded message `null`, whose type
is neither `create` nor `join`, gets no error reply: the handler throws. -/
theorem not_in_room_null_throws :
    truthy ((stateAfter [.message 0 (some msgCreateR1) 1]).conns 1).roomId = false ∧
      JVal.null.typeIs "create" = false ∧ JVal.null.typeIs "join" = false ∧
      onMessage (stateAfter [.message 0 (some msgCreateR1) 1]) 1 (some .null) 2 = none ∧
      step (stateAfter [.message 0 (some msgCreateR1) 1]) (.message 1 (some .null) 2) = none :=
  ⟨rfl, rfl, rfl, rfl, rfl⟩

/-- C15 on a fresh socket and on a socket that is in a room. -/
theorem malformed_payload_dropped_witness :
    (onMessage stateAB 0 none 3 = some (stateAB, []) ∧
      (0 ∉ stateAB.closed → step stateAB (.message 0 none 3) = some (stateAB, []))) ∧
    (onMessage State.init 5 none 3 = some (State.init, []) ∧
      (5 ∉ State.init.closed → step State.init (.message 5 none 3) = some (State.init, []))) :=
  ⟨malformed_payload_dropped stateAB 0 3, malformed_payload_dropped State.init 5 3⟩

/-- C16 refuted on the scenario: Bob (socket 1) joins `R1` as `Bob`, joins again as
`Zed`, and closes; Alice (socket 0) is sent `peer-join{Bob}` for the first
admission, but the `peer-leave` of that socket carries `Zed`. -/
theorem display_name_counterexample :
    ((stateAfter [.message 0 (some msgCreateR1) 1, .message 1 (some msgJoinR1) 2]).conns 1).name =
        .str "Bob" ∧
    received 0 (sendsAfter [.message 0 (some msgCreateR1) 1, .message 1 (some msgJoinR1) 2,
        .message 1 (some msgJoinR1Zed) 3, .close 1 4]) =
      [replyMsg "created" (some (.str "R1")), peerMsg "peer-join" (.str "Bob"),
        peerMsg "peer-join" (.str "Zed"), peerMsg "peer-leave" (.str "Zed")] :=
  ⟨rfl, rfl⟩

/-- C16, amended. A message from socket `c` that is answered `created` or `joined`
sets the name of `c` to the supplied name when that is non-empty, and otherwise to
`host` for a `create` and `guest` for a `join`; every send of that handler run to
another socket is `peer-join` with that name; and when `c` closes after events
among which there is no further `create` or `join` of its own, every send of the
`close` callback is `peer-leave` with that name. -/
theorem display_name (s s1 s2 s3 : State) (c : ConnId) (msg : JVal) (now t : Nat)
    (mid : List Event) (o1 o2 o3 : List Send)
    (h1 : onMessage s c (some msg) now = some (s1, o1))
    (hok : ∃ e ∈ o1, e.dest = c ∧ e.payload.isReply = true)
    (hmid : run s1 mid = some (s2, o2))
    (hno : ∀ e ∈ mid, e.admissionBy c = false)
    (h3 : onClose s2 c t = some (s3, o3)) :
    (truthy (msg.getField "name") = true → some (s1.conns c).name = msg.getField "name") ∧
    (truthy (msg.getField "name") = false →
      (msg.typeIs "create" = true → (s1.conns c).name = .str "host") ∧
      (msg.typeIs "join" = true → (s1.conns c).name = .str "guest")) ∧
    (∀ e ∈ o1, e.dest ≠ c → e.payload = peerMsg "peer-join" (s1.conns c).name) ∧
    (∀ e ∈ o3, e.payload = peerMsg "peer-leave" (s1.conns c).name) := by
  rcases onMessage_cases s s1 c (some msg) now o1 h1 with hn | ⟨msg0, hraw, hadm⟩
  · obtain ⟨e, he, hd, hr⟩ := hok
    rw [hn.2.2.2 e he hd] at hr
    simp at hr
  · have hmsg : msg0 = msg := (Option.some.inj hraw).symm
    subst hmsg
    obtain ⟨k0, t0, reply, dflt, hkind, _, _, _, hconns, _, hout, _⟩ := hadm
    have hname : (s1.conns c).name = nameOr (msg0.getField "name") dflt := by
      rw [hconns]; simp [setConn]
    refine ⟨?_, ?_, ?_, ?_⟩
    · intro ht
      rw [hname]
      exact nameOr_truthy _ _ ht
    · intro hf
      rw [hname, nameOr_falsy _ _ hf]
      refine ⟨fun hc => ?_, fun hj => ?_⟩
      · rcases hkind with hk | hk
        · rw [hk.2.2]
        · rw [typeIs_join_not_create msg0 hk.1] at hc
          simp at hc
      · rcases hkind with hk | hk
        · rw [typeIs_join_not_create msg0 hj] at hk
          simp at hk
        · rw [hk.2.2]
    · intro e he hd
      rw [hout] at he
      rcases List.mem_cons.1 he with h0 | h0
      · rw [h0] at hd
        exact absurd rfl hd
      · simp only [List.mem_map] at h0
        obtain ⟨w, _, rfl⟩ := h0
        rw [hname]
    · intro e he
      rw [(onClose_sends s2 s3 c t o3 h3 e he).1, run_keeps_conn mid s1 s2 o2 c hno hmid]

/-- C16 amended, on the scenario: Bob joins `R1` as `Bob`, Alice sends `play`, Bob
closes: the `peer-join` and the `peer-leave` that Alice is sent carry `Bob`. -/
theorem display_name_witness :
    (truthy (msgJoinR1.getField "name") = true →
      some (stateAB.conns 1).name = msgJoinR1.getField "name") ∧
    (truthy (msgJoinR1.getField "name") = false →
      (msgJoinR1.typeIs "create" = true → (stateAB.conns 1).name = .str "host") ∧
      (msgJoinR1.typeIs "join" = true → (stateAB.conns 1).name = .str "guest")) ∧
    (∀ e ∈ runSends (stateAfter [.message 0 (some msgCreateR1) 1])
        [.message 1 (some msgJoinR1) 2],
      e.dest ≠ 1 → e.payload = peerMsg "peer-join" (stateAB.conns 1).name) ∧
    (∀ e ∈ [(⟨0, peerMsg "peer-leave" (.str "Bob")⟩ : Send)],
      e.payload = peerMsg "peer-leave" (stateAB.conns 1).name) :=
  display_name (stateAfter [.message 0 (some msgCreateR1) 1]) stateAB
    (runState stateAB [.message 0 (some msgPlay) 3]) _ 1 msgJoinR1 2 4
    [.message 0 (some msgPlay) 3]
    (runSends (stateAfter [.message 0 (some msgCreateR1) 1]) [.message 1 (some msgJoinR1) 2])
    (runSends stateAB [.message 0 (some msgPlay) 3])
    [(⟨0, peerMsg "peer-leave" (.str "Bob")⟩ : Send)]
    rfl ⟨⟨1, replyMsg "joined" (some (.str "R1"))⟩, List.Mem.head _, rfl, rfl⟩ rfl (by decide) rfl

/-- C17, evaluated: on the payload `null`, which `JSON.parse` accepts, the handler
throws at `msg.type`; on a `join` whose `roomId` is an object with a member named
`toString` it throws at `rooms[msg.roomId]`. -/
theorem handler_throws :
    onMessage State.init 0 (some .null) 1 = none ∧
      run State.init [.message 0 (some .null) 1] = none ∧
      onMessage State.init 0 (some msgJoinBadKey) 1 = none ∧
      onMessage stateAB 0 (some .null) 3 = none :=
  ⟨rfl, rfl, rfl, rfl⟩

/-- C7, evaluated: socket 0 creates the room `"0"` and socket 1 joins it with
`roomId: 0`; socket 1 is answered `joined`, is in the member set, and its `roomId`
names the room (`rooms[0]` is the room `"0"`). When socket 1 closes, the handler
returns at `!roomId`: socket 1 is still in the member set and nothing is sent, so
socket 0 gets no `peer-leave`. -/
theorem close_skips_falsy_roomId :
    received 1 (sendsAfter [.message 0 (some msgCreateZero) 1, .message 1 (some msgJoinZero) 2]) =
        [replyMsg "joined" (some (.num 0))] ∧
      membersOf (stateAfter [.message 0 (some msgCreateZero) 1, .message 1 (some msgJoinZero) 2])
        "0" = [0, 1] ∧
      toPropertyKey ((stateAfter [.message 0 (some msgCreateZero) 1,
        .message 1 (some msgJoinZero) 2]).conns 1).roomId = some "0" ∧
      truthy ((stateAfter [.message 0 (some msgCreateZero) 1,
        .message 1 (some msgJoinZero) 2]).conns 1).roomId = false ∧
      (onClose (stateAfter [.message 0 (some msgCreateZero) 1, .message 1 (some msgJoinZero) 2])
        1 3).map (fun r => (membersOf r.1 "0", r.2.length)) = some ([0, 1], 0) ∧
      (stateAfter [.message 0 (some msgCreateZero) 1, .message 1 (some msgJoinZero) 2,
        .close 1 3]).closed = [1] ∧
      membersOf (stateAfter [.message 0 (some msgCreateZero) 1, .message 1 (some msgJoinZero) 2,
        .close 1 3]) "0" = [0, 1] ∧
      received 0 (runSends (stateAfter [.message 0 (some msgCreateZero) 1,
        .message 1 (some msgJoinZero) 2]) [.close 1 3]) = [] :=
  ⟨rfl, by decide, by decide, by decide, by decide, by decide, by decide, rfl⟩

end CoWatch
